import Mathlib

/-!
# Mini database engine (`mini_Database_engine.cpp`)

A shallow embedding of the table / catalog model of the engine and the
properties of its insertion, validation, tokenizing and persistence code.

Conventions of the embedding:

* `std::string` is a list of characters (`Str`);
* text written to `cout` is returned as a `Str`, in the order written;
* a function whose C++ body can index a `vector` out of range returns an
  `Option`: `none` stands for such an out-of-range read (undefined behaviour),
  `some r` for a normal return;
* `unsigned int` constraint sets are natural numbers.
-/

namespace MiniDb

/-- The type of `std::string` values. -/
abbrev Str := List Char

/-- The text written by `<< endl`. -/
def endl : Str := [Char.ofNat 10]

/-- Decimal rendering of a `size_t` / `unsigned int` by `operator<<`. -/
def showNat (n : Nat) : Str := Nat.toDigits 10 n

/-- Bit flag `PRIMARY_KEY = 1`. -/
def PRIMARY_KEY : Nat := 1
/-- Bit flag `NOT_NULL = 2`. -/
def NOT_NULL : Nat := 2
/-- Bit flag `UNIQUE = 4`. -/
def UNIQUE : Nat := 4

/-- Class `Column`. -/
structure Column where
  name : Str
  type : Str
  constraints : Nat
  deriving DecidableEq, Repr

/-- `Column::hasConstraint`: `(constraints & flag) != 0`. -/
def Column.hasConstraint (c : Column) (flag : Nat) : Bool :=
  (c.constraints &&& flag) != 0

/-- Class `Row`. -/
structure Row where
  values : List Str
  deriving DecidableEq, Repr

/-- Class `Table` (the rows are owned by the table, so the pointers of
`vector<Row*>` are modelled by the rows themselves). -/
structure Table where
  tableName : Str
  columns : List Column
  rows : List Row
  deriving DecidableEq, Repr

/-- `Table(const string& name)`. -/
def Table.new (name : Str) : Table := ⟨name, [], []⟩

/-- The result of a `bool`-returning member function of `Table`: the returned
flag, the table afterwards and the text written to `cout`. -/
structure TableResult where
  ok : Bool
  table : Table
  out : Str
  deriving DecidableEq, Repr

/-! ## `Table::validateConstraints` -/

/-- First loop of `validateConstraints` (NOT NULL), from column index `i` on,
`cols` being the columns not yet visited. `some none`: loop finished,
`some (some msg)`: `msg` printed and `false` returned. -/
def notNullPass (values : List Str) : List Column → Nat → Option (Option Str)
  | [], _ => some none
  | c :: cs, i =>
    if c.hasConstraint NOT_NULL then
      match values[i]? with
      | none => none
      | some v =>
        if v.isEmpty then
          some (some ("Error: Column ".toList ++ c.name ++ " cannot be NULL".toList ++ endl))
        else notNullPass values cs (i + 1)
    else notNullPass values cs (i + 1)

/-- The loop `for (const auto& row : rows) if (row->values[i] == values[i])`:
`some true` when it finds an equal value, `some false` when it runs to the end. -/
def scanRows (values : List Str) (i : Nat) : List Row → Option Bool
  | [] => some false
  | r :: rs =>
    match r.values[i]?, values[i]? with
    | some a, some b => if a = b then some true else scanRows values i rs
    | _, _ => none

/-- Second loop of `validateConstraints` (UNIQUE). -/
def uniquePass (rows : List Row) (values : List Str) : List Column → Nat → Option (Option Str)
  | [], _ => some none
  | c :: cs, i =>
    if c.hasConstraint UNIQUE then
      match scanRows values i rows with
      | none => none
      | some true =>
        some (some ("Error: Duplicate value in UNIQUE column ".toList ++ c.name ++ endl))
      | some false => uniquePass rows values cs (i + 1)
    else uniquePass rows values cs (i + 1)

/-- Third loop of `validateConstraints` (PRIMARY KEY). -/
def primaryKeyPass (rows : List Row) (values : List Str) :
    List Column → Nat → Option (Option Str)
  | [], _ => some none
  | c :: cs, i =>
    if c.hasConstraint PRIMARY_KEY then
      match values[i]? with
      | none => none
      | some v =>
        if v.isEmpty then
          some (some ("Error: Primary key column ".toList ++ c.name
            ++ " cannot be NULL".toList ++ endl))
        else
          match scanRows values i rows with
          | none => none
          | some true =>
            some (some ("Error: Duplicate primary key value in column ".toList
              ++ c.name ++ endl))
          | some false => primaryKeyPass rows values cs (i + 1)
    else primaryKeyPass rows values cs (i + 1)

/-- `Table::validateConstraints`: the returned flag and the text printed. -/
def Table.validateConstraints (t : Table) (values : List Str) : Option (Bool × Str) :=
  match notNullPass values t.columns 0 with
  | none => none
  | some (some msg) => some (false, msg)
  | some none =>
    match uniquePass t.rows values t.columns 0 with
    | none => none
    | some (some msg) => some (false, msg)
    | some none =>
      match primaryKeyPass t.rows values t.columns 0 with
      | none => none
      | some (some msg) => some (false, msg)
      | some none => some (true, [])

/-! ## `Table::addColumn`, `Table::insertRow` -/

/-- `Table::addColumn`: the table afterwards and the text printed. -/
def Table.addColumn (t : Table) (name type : Str) (constraints : Nat) : Table × Str :=
  ({ t with columns := t.columns ++ [⟨name, type, constraints⟩] },
    "Column ".toList ++ name ++ " added successfully.".toList ++ endl)

/-- The test `!isdigit(c) && c != '-'` of the type check. -/
def badIntChar (c : Char) : Bool := !c.isDigit && c != '-'

/-- The type-validation loop of `insertRow`. -/
def typePass (values : List Str) : List Column → Nat → Option (Option Str)
  | [], _ => some none
  | c :: cs, i =>
    if c.type = "int".toList then
      match values[i]? with
      | none => none
      | some v =>
        if v.any badIntChar then
          some (some ("Error: Invalid integer value for column ".toList ++ c.name ++ endl))
        else typePass values cs (i + 1)
    else typePass values cs (i + 1)

/-- The text of the arity error of `insertRow`. -/
def mismatchMsg (expected got : Nat) : Str :=
  "Error: Column count mismatch. Expected ".toList ++ showNat expected
    ++ ", got ".toList ++ showNat got ++ endl

/-- `Table::insertRow`. -/
def Table.insertRow (t : Table) (values : List Str) : Option TableResult :=
  if values.length ≠ t.columns.length then
    some ⟨false, t, mismatchMsg t.columns.length values.length⟩
  else
    match typePass values t.columns 0 with
    | none => none
    | some (some msg) => some ⟨false, t, msg⟩
    | some none =>
      match t.validateConstraints values with
      | none => none
      | some (false, msg) => some ⟨false, t, msg⟩
      | some (true, msg) => some ⟨true, { t with rows := t.rows ++ [⟨values⟩] }, msg⟩

/-! ## `Table::selectAll` -/

/-- The text of `cout << left << setw(15) << s`. -/
def pad15 (s : Str) : Str := s ++ List.replicate (15 - s.length) ' '

/-- Concatenation of the padded cells of one printed line. -/
def padCells : List Str → Str
  | [] => []
  | s :: ss => pad15 s ++ padCells ss

/-- The separator loop of `selectAll`: one run of 15 dashes per column. -/
def dashCells : List Column → Str
  | [] => []
  | _ :: cs => List.replicate 15 '-' ++ dashCells cs

/-- The row loop of `selectAll`. -/
def rowLines : List Row → Str
  | [] => []
  | r :: rs => padCells r.values ++ endl ++ rowLines rs

/-- `Table::selectAll`: the text printed. -/
def Table.selectAll (t : Table) : Str :=
  if t.rows = [] then "No records found.".toList ++ endl
  else
    padCells (t.columns.map Column.name) ++ endl ++ dashCells t.columns ++ endl
      ++ rowLines t.rows

/-! ## Streams: lines and whitespace-separated tokens -/

/-- The predicate `isspace` of the C locale. -/
def isSpace (c : Char) : Bool :=
  c = ' ' || (9 ≤ c.toNat && c.toNat ≤ 13)

/-- Repeated `iss >> token` until extraction fails: the maximal runs of
non-whitespace characters of `s`, in order. `cur` is the token being read and
`toks` the tokens already extracted. -/
def wsTokensLoop : Str → Str → List Str → List Str
  | [], cur, toks => if cur = [] then toks else toks ++ [cur]
  | c :: cs, cur, toks =>
    if isSpace c then
      if cur = [] then wsTokensLoop cs [] toks else wsTokensLoop cs [] (toks ++ [cur])
    else wsTokensLoop cs (cur ++ [c]) toks

/-- All tokens that `while (iss >> token)` extracts from `s`. -/
def wsTokens (s : Str) : List Str := wsTokensLoop s [] []

/-- Repeated `getline(file, line)` until it fails: the lines of a file, a final
line without newline included, `cur` being the line read so far. -/
def splitLinesLoop : Str → Str → List Str
  | [], cur => if cur = [] then [] else [cur]
  | c :: cs, cur =>
    if c = Char.ofNat 10 then cur :: splitLinesLoop cs [] else splitLinesLoop cs (cur ++ [c])

/-- The lines that successive `getline` calls read from a file of content `s`. -/
def splitLines (s : Str) : List Str := splitLinesLoop s []

/-- Value of a run of decimal digits. -/
def digitsValue (ds : Str) : Nat :=
  ds.foldl (fun a c => 10 * a + (c.toNat - 48)) 0

/-- Extraction `iss >> constraints` of an `unsigned int` from a token (C++11
`num_get`, decimal): an optional sign, then the longest run of digits; `0`
when there is no digit, the maximum on overflow, and the negated value modulo
`2^32` after a minus sign. -/
def readUnsigned (tok : Str) : Nat :=
  let neg := tok.head? = some '-'
  let body := if tok.head? = some '-' ∨ tok.head? = some '+' then tok.drop 1 else tok
  let ds := body.takeWhile Char.isDigit
  if ds = [] then 0
  else if digitsValue ds > 4294967295 then 4294967295
  else if neg then (4294967296 - digitsValue ds) % 4294967296
  else digitsValue ds

/-! ## `Table::saveToFile`, `Table::loadFromFile` -/

/-- Strings written one after the other with a single space after each one
except the last (the loops `if (i < size - 1) ... << " "`). -/
def joinSp : List Str → Str
  | [] => []
  | [v] => v
  | v :: w :: vs => v ++ ' ' :: joinSp (w :: vs)

/-- The line written for one column. -/
def columnLine (c : Column) : Str :=
  c.name ++ " ".toList ++ c.type ++ " ".toList ++ showNat c.constraints

/-- The column loop of `saveToFile`. -/
def saveColumns : List Column → Str
  | [] => []
  | c :: cs => columnLine c ++ endl ++ saveColumns cs

/-- The row loop of `saveToFile`. -/
def saveRows : List Row → Str
  | [] => []
  | r :: rs => joinSp r.values ++ endl ++ saveRows rs

/-- What `saveToFile` writes after the `TABLE` line. -/
def Table.saveBody (t : Table) : Str :=
  saveColumns t.columns ++ "DATA".toList ++ endl ++ saveRows t.rows ++ "END".toList ++ endl

/-- `Table::saveToFile`: the text appended to the file. -/
def Table.saveToFile (t : Table) : Str :=
  "TABLE ".toList ++ t.tableName ++ endl ++ t.saveBody

/-- Result of `Table::loadFromFile`: the table, the lines of the stream not
yet read, and the text printed. -/
structure LoadResult where
  table : Table
  rest : List Str
  out : Str
  deriving DecidableEq, Repr

/-- First loop of `loadFromFile` (columns). A non-empty line with fewer than
three tokens leaves `constraints` uninitialised: `none`. -/
def loadColumns : Table → List Str → Str → Option LoadResult
  | t, [], out => some ⟨t, [], out⟩
  | t, line :: rest, out =>
    if line = "DATA".toList then some ⟨t, rest, out⟩
    else if line = [] then loadColumns t rest out
    else
      match wsTokens line with
      | colName :: colType :: c :: _ =>
        loadColumns (t.addColumn colName colType (readUnsigned c)).1 rest
          (out ++ (t.addColumn colName colType (readUnsigned c)).2)
      | _ => none

/-- Second loop of `loadFromFile` (data). -/
def loadRows : Table → List Str → Str → Option LoadResult
  | t, [], out => some ⟨t, [], out⟩
  | t, line :: rest, out =>
    if line = "END".toList then some ⟨t, rest, out⟩
    else if line = [] then loadRows t rest out
    else if wsTokens line = [] then loadRows t rest out
    else
      match t.insertRow (wsTokens line) with
      | none => none
      | some r => loadRows r.table rest (out ++ r.out)

/-- `Table::loadFromFile` on a stream whose remaining lines are `lines`. -/
def Table.loadFromFile (t : Table) (lines : List Str) : Option LoadResult :=
  match loadColumns t lines [] with
  | none => none
  | some r => loadRows r.table r.rest r.out

/-! ## `DatabaseEngine` -/

/-- The value of the `Table* currentTable` member: null, a pointer to the
table at a position of `tables`, or a pointer to a table already deleted. -/
inductive TablePtr where
  | null
  | valid (idx : Nat)
  | dangling
  deriving DecidableEq, Repr

/-- The file `database.txt`: its content when it can be opened for reading,
and whether it can be opened for writing. -/
structure Disk where
  content : Option Str
  writable : Bool
  deriving DecidableEq, Repr

/-- Class `DatabaseEngine`, with the file it saves to and loads from. -/
structure DatabaseEngine where
  tables : List Table
  currentTable : TablePtr
  disk : Disk
  deriving DecidableEq, Repr

/-- `DatabaseEngine()`, beside a given file. -/
def DatabaseEngine.new (d : Disk) : DatabaseEngine := ⟨[], TablePtr.null, d⟩

/-- Result of a member function of `DatabaseEngine`: the engine afterwards
and the text printed. -/
structure ExecResult where
  engine : DatabaseEngine
  out : Str
  deriving DecidableEq, Repr

/-- `DatabaseEngine::parseCommand`. -/
def DatabaseEngine.parseCommand (command : Str) : List Str := wsTokens command

/-- The loop of `parseValues` over the characters not yet read. -/
def parseValuesLoop : Str → List Str → Str → Bool → List Str
  | [], values, current, _ => if current ≠ [] then values ++ [current] else values
  | c :: cs, values, current, inQuotes =>
    if c = Char.ofNat 39 then parseValuesLoop cs values current (!inQuotes)
    else if c = ',' ∧ inQuotes = false then
      if current ≠ [] then parseValuesLoop cs (values ++ [current]) [] inQuotes
      else parseValuesLoop cs values current inQuotes
    else parseValuesLoop cs values (current ++ [c]) inQuotes

/-- `DatabaseEngine::parseValues`. -/
def DatabaseEngine.parseValues (valuesStr : Str) : List Str :=
  parseValuesLoop valuesStr [] [] false

/-- `DatabaseEngine::createTable`. -/
def DatabaseEngine.createTable (e : DatabaseEngine) (tableName : Str) : ExecResult :=
  ⟨{ e with tables := e.tables ++ [Table.new tableName],
            currentTable := TablePtr.valid e.tables.length },
    "Table ".toList ++ tableName ++ " created successfully.".toList ++ endl⟩

/-- The text printed when `currentTable` is null. -/
def noTableMsg : Str := "No table selected. Create a table first.".toList ++ endl

/-- The loop of `addColumn` over `tokens[4..]`. -/
def constraintBits : List Str → Nat → Nat
  | [], constraints => constraints
  | tok :: toks, constraints =>
    if tok = "PRIMARY".toList then constraintBits toks (constraints ||| PRIMARY_KEY)
    else if tok = "NOTNULL".toList then constraintBits toks (constraints ||| NOT_NULL)
    else if tok = "UNIQUE".toList then constraintBits toks (constraints ||| UNIQUE)
    else constraintBits toks constraints

/-- `DatabaseEngine::addColumn`. -/
def DatabaseEngine.addColumn (e : DatabaseEngine) (tokens : List Str) : Option ExecResult :=
  match e.currentTable with
  | TablePtr.null => some ⟨e, noTableMsg⟩
  | TablePtr.dangling => none
  | TablePtr.valid idx =>
    match e.tables[idx]?, tokens[2]?, tokens[3]? with
    | some t, some colName, some colType =>
      some ⟨{ e with tables :=
                e.tables.set idx (t.addColumn colName colType (constraintBits (tokens.drop 4) 0)).1 },
        (t.addColumn colName colType (constraintBits (tokens.drop 4) 0)).2⟩
    | _, _, _ => none

/-- The search loop of `insertInto`: the first position of `VALUES`, `0` when
there is none. -/
def findValues : List Str → Nat → Nat
  | [], _ => 0
  | tok :: toks, i => if tok = "VALUES".toList then i else findValues toks (i + 1)

/-- The two parenthesis-stripping statements of `insertInto`; `front()` and
`back()` of an empty string are out-of-range reads. -/
def stripParens (valuesStr : Str) : Option Str :=
  match valuesStr.head? with
  | none => none
  | some f =>
    match (if f = '(' then valuesStr.drop 1 else valuesStr).getLast? with
    | none => none
    | some b =>
      some (if b = ')' then (if f = '(' then valuesStr.drop 1 else valuesStr).dropLast
            else (if f = '(' then valuesStr.drop 1 else valuesStr))

/-- `DatabaseEngine::insertInto`. -/
def DatabaseEngine.insertInto (e : DatabaseEngine) (tokens : List Str) : Option ExecResult :=
  match e.currentTable with
  | TablePtr.null => some ⟨e, noTableMsg⟩
  | TablePtr.dangling => none
  | TablePtr.valid idx =>
    if findValues tokens 0 = 0 then some ⟨e, "Invalid INSERT syntax".toList ++ endl⟩
    else
      match stripParens (joinSp (tokens.drop (findValues tokens 0 + 1))) with
      | none => none
      | some valuesStr =>
        match e.tables[idx]? with
        | none => none
        | some t =>
          match t.insertRow (DatabaseEngine.parseValues valuesStr) with
          | none => none
          | some r =>
            some ⟨{ e with tables := e.tables.set idx r.table },
              r.out ++ (if r.ok then "Record inserted.".toList ++ endl else [])⟩

/-- `DatabaseEngine::selectFrom`. -/
def DatabaseEngine.selectFrom (e : DatabaseEngine) (tableName : Str) : ExecResult :=
  match e.tables.find? (fun t => t.tableName = tableName) with
  | none => ⟨e, "Table not found!".toList ++ endl⟩
  | some t => ⟨e, t.selectAll⟩

/-- The table loop of `DatabaseEngine::saveToFile`. -/
def saveTables : List Table → Str
  | [] => []
  | t :: ts => t.saveToFile ++ saveTables ts

/-- `DatabaseEngine::saveToFile("database.txt")`. -/
def DatabaseEngine.saveToFile (e : DatabaseEngine) : ExecResult :=
  if e.disk.writable then
    ⟨{ e with disk := { e.disk with content := some (saveTables e.tables) } },
      "Database saved to database.txt".toList ++ endl⟩
  else ⟨e, "Error opening file for writing!".toList ++ endl⟩

/-- The reading loop of `DatabaseEngine::loadFromFile`; every iteration reads
at least one line, so `fuel` equal to the number of lines is never used up. -/
def loadTables : Nat → List Str → List Table → Str → Option (List Table × Str)
  | 0, _, tables, out => some (tables, out)
  | _, [], tables, out => some (tables, out)
  | fuel + 1, line :: rest, tables, out =>
    if line.take 6 = "TABLE ".toList then
      match (Table.new (line.drop 6)).loadFromFile rest with
      | none => none
      | some r =>
        loadTables fuel r.rest (tables ++ [r.table])
          (out ++ r.out ++ "Table ".toList ++ line.drop 6 ++ " loaded successfully.".toList ++ endl)
    else loadTables fuel rest tables out

/-- `DatabaseEngine::loadFromFile("database.txt")`: the old tables are deleted,
which leaves a non-null `currentTable` dangling. -/
def DatabaseEngine.loadFromFile (e : DatabaseEngine) : Option ExecResult :=
  match e.disk.content with
  | none => some ⟨e, "Error opening file for reading!".toList ++ endl⟩
  | some text =>
    match loadTables (splitLines text).length (splitLines text) [] [] with
    | none => none
    | some (tables, out) =>
      some ⟨{ e with tables := tables,
                     currentTable :=
                       if e.currentTable = TablePtr.null then TablePtr.null
                       else TablePtr.dangling },
        out ++ "Database loaded from database.txt".toList ++ endl⟩

/-- The test `tokens[k] == word`; `none` when `tokens` has no position `k`. -/
def tokenIs (tokens : List Str) (k : Nat) (word : String) : Option Bool :=
  match tokens[k]? with
  | none => none
  | some tok => some (tok = word.toList)

/-- Short-circuit `&&` of two tests that may read out of range. -/
def andAlso (a b : Option Bool) : Option Bool :=
  match a with
  | none => none
  | some false => some false
  | some true => b

/-- `DatabaseEngine::executeCommand`. -/
def DatabaseEngine.executeCommand (e : DatabaseEngine) (command : Str) : Option ExecResult :=
  let tokens := DatabaseEngine.parseCommand command
  if tokens = [] then some ⟨e, []⟩
  else
    match andAlso (tokenIs tokens 0 "CREATE") (tokenIs tokens 1 "TABLE") with
    | none => none
    | some true =>
      match tokens[2]? with
      | none => none
      | some tableName => some (e.createTable tableName)
    | some false =>
    match andAlso (tokenIs tokens 0 "INSERT") (tokenIs tokens 1 "INTO") with
    | none => none
    | some true => e.insertInto tokens
    | some false =>
    match tokenIs tokens 0 "SELECT" with
    | none => none
    | some true =>
      match andAlso (tokenIs tokens 1 "*") (tokenIs tokens 2 "FROM") with
      | none => none
      | some true =>
        match tokens[3]? with
        | none => none
        | some tableName => some (e.selectFrom tableName)
      | some false => some ⟨e, []⟩
    | some false =>
    match andAlso (tokenIs tokens 0 "SAVE")
        (andAlso (tokenIs tokens 1 "TO") (tokenIs tokens 2 "FILE")) with
    | none => none
    | some true => some e.saveToFile
    | some false =>
    match andAlso (tokenIs tokens 0 "LOAD")
        (andAlso (tokenIs tokens 1 "FROM") (tokenIs tokens 2 "FILE")) with
    | none => none
    | some true => e.loadFromFile
    | some false =>
    match andAlso (tokenIs tokens 0 "ADD") (tokenIs tokens 1 "COLUMN") with
    | none => none
    | some true => e.addColumn tokens
    | some false => some ⟨e, "Unknown command!".toList ++ endl⟩

/-- The loop body of `run` over successive input lines up to the first `EXIT`
(every line shorter than the 256-character buffer): the engine after the last
command and all the text the commands printed. -/
def runLines : DatabaseEngine → List Str → Str → Option ExecResult
  | e, [], out => some ⟨e, out⟩
  | e, line :: rest, out =>
    if line = "EXIT".toList then some ⟨e, out⟩
    else
      match e.executeCommand line with
      | none => none
      | some r => runLines r.engine rest (out ++ r.out)

/-! ## Reachable table states and sample data -/

/-- Table states reachable from an empty table by any sequence of
`Table::addColumn` and `Table::insertRow` calls. -/
inductive Table.Reachable : Table → Prop
  | new (name : Str) : Table.Reachable (Table.new name)
  | addColumn {t : Table} (name type : Str) (constraints : Nat) :
      Table.Reachable t → Table.Reachable (t.addColumn name type constraints).1
  | insertRow {t : Table} (values : List Str) (r : TableResult) :
      Table.Reachable t → t.insertRow values = some r → Table.Reachable r.table

/-- Table states reachable from an empty table when `Table::addColumn` is only
called while the table holds no record (all columns are added first). -/
inductive Table.Built : Table → Prop
  | new (name : Str) : Table.Built (Table.new name)
  | addColumn {t : Table} (name type : Str) (constraints : Nat) :
      Table.Built t → t.rows = [] → Table.Built (t.addColumn name type constraints).1
  | insertRow {t : Table} (values : List Str) (r : TableResult) :
      Table.Built t → t.insertRow values = some r → Table.Built r.table

/-- The table of the scenario `CREATE TABLE t` / `ADD COLUMN id int PRIMARY`,
without records. -/
def idTable : Table := ⟨"t".toList, [⟨"id".toList, "int".toList, PRIMARY_KEY⟩], []⟩

/-- The table `idTable` holding the record `(1)`. -/
def idTableOne : Table :=
  ⟨"t".toList, [⟨"id".toList, "int".toList, PRIMARY_KEY⟩], [⟨["1".toList]⟩]⟩

/-- A table with two `int` columns and no record. -/
def intPairTable : Table :=
  ⟨"t".toList, [⟨"a".toList, "int".toList, 0⟩, ⟨"b".toList, "int".toList, 0⟩], []⟩

/-- A table with two `text` columns and no record. -/
def textPairTable : Table :=
  ⟨"t".toList, [⟨"a".toList, "text".toList, 0⟩, ⟨"b".toList, "text".toList, 0⟩], []⟩

/-- A table with one UNIQUE `int` column and no record. -/
def uniqueIntTable : Table := ⟨"t".toList, [⟨"n".toList, "int".toList, UNIQUE⟩], []⟩

/-- The table with one UNIQUE `text` column that `insertRow ()` followed by
`addColumn n text UNIQUE` builds from the empty table: its record has no value. -/
def shortRowTable : Table := ⟨"t".toList, [⟨"n".toList, "text".toList, UNIQUE⟩], [⟨[]⟩]⟩

/-- A string without whitespace character. -/
def wsFree (s : Str) : Prop := ∀ ch ∈ s, isSpace ch = false

instance (s : Str) : Decidable (wsFree s) :=
  inferInstanceAs (Decidable (∀ ch ∈ s, isSpace ch = false))

/-- A column that a line of the file can hold: name and type are non-empty
and free of whitespace, and the constraint bits fit an `unsigned int`. -/
def Column.storable (c : Column) : Prop :=
  (c.name ≠ [] ∧ wsFree c.name) ∧ (c.type ≠ [] ∧ wsFree c.type) ∧ c.constraints < 4294967296

instance (c : Column) : Decidable c.storable :=
  inferInstanceAs (Decidable ((c.name ≠ [] ∧ wsFree c.name) ∧ (c.type ≠ [] ∧ wsFree c.type)
    ∧ c.constraints < 4294967296))

/-- A record that a line of the file can hold: every value is non-empty and
free of whitespace, and the record is not the single value `END`. -/
def Row.storable (r : Row) : Prop :=
  (∀ v ∈ r.values, v ≠ [] ∧ wsFree v) ∧ r.values ≠ ["END".toList]

instance (r : Row) : Decidable r.storable :=
  inferInstanceAs (Decidable ((∀ v ∈ r.values, v ≠ [] ∧ wsFree v) ∧ r.values ≠ ["END".toList]))

/-- A table with one `text` column whose first record is the value `END`. -/
def endTable : Table :=
  ⟨"t".toList, [⟨"a".toList, "text".toList, 0⟩], [⟨["END".toList]⟩, ⟨["a".toList]⟩]⟩

/-- The records kept "modulo rows that fail validation on reload": the value
lists are offered to `insertRow` one after the other, in order, and the
rejected ones are left out. -/
def keepValid : Table → List Row → Option Table
  | t, [] => some t
  | t, r :: rs =>
    match t.insertRow r.values with
    | none => none
    | some res => keepValid res.table rs

/-- The table that `INSERT INTO t VALUES (x, y)` leaves from `textPairTable`. -/
def spacedTable : Table := { textPairTable with rows := [⟨["x".toList, " y".toList]⟩] }

/-- An engine whose only and current table is `t`. -/
def engineOf (t : Table) (d : Disk) : DatabaseEngine := ⟨[t], TablePtr.valid 0, d⟩

/-! ## Acceptance and violations, in the words of the specification -/

/-- The value list has the empty string at column index `i`. -/
def emptyAt (values : List Str) (i : Nat) : Prop := values[i]? = some []

/-- Some stored record has, at column index `i`, the value the list has there. -/
def storedAt (rows : List Row) (values : List Str) (i : Nat) : Prop :=
  ∃ v, values[i]? = some v ∧ ∃ r ∈ rows, r.values[i]? = some v

/-- The four conditions under which an insert is to succeed: (1) the arity is
the column count, (2) the value of every `int` column is made of digits and
`-` only, (3) no NOT_NULL or PRIMARY_KEY column has the empty string, (4) no
UNIQUE or PRIMARY_KEY column has a value that a stored record has there. -/
def Table.admits (t : Table) (values : List Str) : Prop :=
  values.length = t.columns.length ∧
  ∀ (i : Nat) (c : Column) (v : Str), t.columns[i]? = some c → values[i]? = some v →
    (c.type = "int".toList → ∀ ch ∈ v, ch.isDigit = true ∨ ch = '-') ∧
    (c.hasConstraint NOT_NULL = true ∨ c.hasConstraint PRIMARY_KEY = true → v ≠ []) ∧
    (c.hasConstraint UNIQUE = true ∨ c.hasConstraint PRIMARY_KEY = true →
      ∀ r ∈ t.rows, r.values[i]? ≠ some v)

/-- A two-column table whose first column is UNIQUE and second NOT_NULL,
holding the record `(k, x)`. -/
def orderTable : Table :=
  ⟨"t".toList, [⟨"u".toList, "text".toList, UNIQUE⟩, ⟨"n".toList, "text".toList, NOT_NULL⟩],
    [⟨["k".toList, "x".toList]⟩]⟩

/-- The column with the NOT_NULL and UNIQUE bits set when it is a PRIMARY_KEY
column (`constraints | NOT_NULL | UNIQUE`). -/
def Column.withKeyBits (c : Column) : Column :=
  if c.hasConstraint PRIMARY_KEY then { c with constraints := c.constraints ||| NOT_NULL ||| UNIQUE }
  else c

/-- The column with the NOT_NULL and UNIQUE bits cleared when it is a
PRIMARY_KEY column (`constraints & ~(NOT_NULL | UNIQUE)` on 32 bits). -/
def Column.withoutKeyBits (c : Column) : Column :=
  if c.hasConstraint PRIMARY_KEY then { c with constraints := c.constraints &&& 4294967289 }
  else c

/-- A table whose only column carries the three bits, holding the key `1`. -/
def allBitsTable : Table :=
  ⟨"t".toList, [⟨"id".toList, "int".toList, PRIMARY_KEY ||| NOT_NULL ||| UNIQUE⟩],
    [⟨["1".toList]⟩]⟩

/-- The input with every single quote removed and every comma that lies
outside an open quote removed; `q` tells whether a quote is open. -/
def unquoted : Str → Bool → Str
  | [], _ => []
  | c :: cs, q =>
    if c = Char.ofNat 39 then unquoted cs (!q)
    else if c = ',' ∧ q = false then unquoted cs q
    else c :: unquoted cs q

/-- The pieces into which the commas outside quotes cut the input, the single
quotes being removed; a comma inside an open quote stays in its piece. -/
def quoteSegments : Str → Bool → List Str
  | [], _ => [[]]
  | c :: cs, q =>
    if c = Char.ofNat 39 then quoteSegments cs (!q)
    else if c = ',' ∧ q = false then [] :: quoteSegments cs q
    else
      match quoteSegments cs q with
      | [] => [[c]]
      | seg :: segs => (c :: seg) :: segs

/-! ## Reachable engine states -/

/-- Engine states reachable from the empty catalog by any sequence of commands
through `executeCommand`. -/
inductive DatabaseEngine.Reachable : DatabaseEngine → Prop
  | new (d : Disk) : DatabaseEngine.Reachable (DatabaseEngine.new d)
  | step {e : DatabaseEngine} (command : Str) (r : ExecResult) :
      DatabaseEngine.Reachable e → e.executeCommand command = some r →
      DatabaseEngine.Reachable r.engine

/-- The command, if it is a `CREATE TABLE <name>`, names a table that is not in
the catalog yet. -/
def createsFresh (e : DatabaseEngine) (command : Str) : Prop :=
  ∀ (n : Str) (rest : List Str),
    DatabaseEngine.parseCommand command = "CREATE".toList :: "TABLE".toList :: n :: rest →
    ∀ t ∈ e.tables, t.tableName ≠ n

/-- The command is not a `LOAD FROM FILE`. -/
def notLoad (command : Str) : Prop :=
  ∀ rest : List Str,
    DatabaseEngine.parseCommand command ≠ "LOAD".toList :: "FROM".toList :: "FILE".toList :: rest

/-- Engine states reachable from the empty catalog by commands none of which is
`LOAD FROM FILE` and whose `CREATE TABLE` commands each name a table not yet in
the catalog. -/
inductive DatabaseEngine.ReachableFresh : DatabaseEngine → Prop
  | new (d : Disk) : DatabaseEngine.ReachableFresh (DatabaseEngine.new d)
  | step {e : DatabaseEngine} (command : Str) (r : ExecResult) :
      DatabaseEngine.ReachableFresh e → createsFresh e command → notLoad command →
      e.executeCommand command = some r → DatabaseEngine.ReachableFresh r.engine

/-- A table with one `text` column and no record. -/
def textTable : Table := ⟨"t".toList, [⟨"a".toList, "text".toList, 0⟩], []⟩

/-! ## Auxiliary facts about the validation loops -/

theorem typePass_total (values : List Str) :
    ∀ (cols : List Column) (i : Nat), i + cols.length ≤ values.length →
      ∃ r, typePass values cols i = some r
  | [], _, _ => ⟨none, rfl⟩
  | c :: cs, i, h => by
    have hi : i < values.length := by simp only [List.length_cons] at h; omega
    have ih := typePass_total values cs (i + 1) (by simp only [List.length_cons] at h; omega)
    simp only [typePass, List.getElem?_eq_getElem hi]
    split_ifs
    · exact ⟨_, rfl⟩
    · exact ih
    · exact ih

theorem notNullPass_total (values : List Str) :
    ∀ (cols : List Column) (i : Nat), i + cols.length ≤ values.length →
      ∃ r, notNullPass values cols i = some r
  | [], _, _ => ⟨none, rfl⟩
  | c :: cs, i, h => by
    have hi : i < values.length := by simp only [List.length_cons] at h; omega
    have ih := notNullPass_total values cs (i + 1) (by simp only [List.length_cons] at h; omega)
    simp only [notNullPass, List.getElem?_eq_getElem hi]
    split_ifs
    · exact ⟨_, rfl⟩
    · exact ih
    · exact ih

theorem scanRows_total (values : List Str) (i : Nat) (hi : i < values.length) :
    ∀ rows : List Row, (∀ r ∈ rows, i < r.values.length) →
      ∃ b, scanRows values i rows = some b
  | [], _ => ⟨false, rfl⟩
  | r :: rs, h => by
    have hr : i < r.values.length := h r (List.mem_cons_self _ _)
    have ih := scanRows_total values i hi rs (fun x hx => h x (List.mem_cons_of_mem _ hx))
    simp only [scanRows, List.getElem?_eq_getElem hi, List.getElem?_eq_getElem hr]
    split_ifs
    · exact ⟨_, rfl⟩
    · exact ih

/-- The row scan answers `true` exactly when some row holds the value. -/
theorem scanRows_eq_true (values : List Str) (i : Nat) (v : Str) (hv : values[i]? = some v) :
    ∀ rows : List Row, (∀ r ∈ rows, i < r.values.length) →
      (∃ r ∈ rows, r.values[i]? = some v) → scanRows values i rows = some true
  | [], _, h => by obtain ⟨r, hr, _⟩ := h; cases hr
  | r :: rs, hlen, h => by
    have hr : i < r.values.length := hlen r (List.mem_cons_self _ _)
    simp only [scanRows, hv, List.getElem?_eq_getElem hr]
    split_ifs with heq
    · rfl
    · apply scanRows_eq_true values i v hv rs (fun x hx => hlen x (List.mem_cons_of_mem _ hx))
      obtain ⟨x, hx, hxv⟩ := h
      rcases List.mem_cons.1 hx with rfl | hx
      · rw [List.getElem?_eq_getElem hr] at hxv
        exact absurd (Option.some.inj hxv) heq
      · exact ⟨x, hx, hxv⟩

/-- The row scan answers `false` when no row holds the value. -/
theorem scanRows_eq_false (values : List Str) (i : Nat) (v : Str) (hv : values[i]? = some v) :
    ∀ rows : List Row, (∀ r ∈ rows, i < r.values.length) →
      (∀ r ∈ rows, r.values[i]? ≠ some v) → scanRows values i rows = some false
  | [], _, _ => rfl
  | r :: rs, hlen, h => by
    have hr : i < r.values.length := hlen r (List.mem_cons_self _ _)
    have hne := h r (List.mem_cons_self _ _)
    rw [List.getElem?_eq_getElem hr] at hne
    simp only [scanRows, hv, List.getElem?_eq_getElem hr]
    rw [if_neg (fun heq => hne (congrArg some heq))]
    exact scanRows_eq_false values i v hv rs (fun x hx => hlen x (List.mem_cons_of_mem _ hx))
      (fun x hx => h x (List.mem_cons_of_mem _ hx))

theorem uniquePass_total (rows : List Row) (values : List Str) :
    ∀ (cols : List Column) (i : Nat), i + cols.length ≤ values.length →
      (∀ r ∈ rows, i + cols.length ≤ r.values.length) →
      ∃ r, uniquePass rows values cols i = some r
  | [], _, _, _ => ⟨none, rfl⟩
  | c :: cs, i, h, hrows => by
    have hi : i < values.length := by simp only [List.length_cons] at h; omega
    have ih := uniquePass_total rows values cs (i + 1)
      (by simp only [List.length_cons] at h; omega)
      (fun r hr => by have := hrows r hr; simp only [List.length_cons] at this; omega)
    obtain ⟨b, hb⟩ := scanRows_total values i hi rows
      (fun r hr => by have := hrows r hr; simp only [List.length_cons] at this; omega)
    simp only [uniquePass, hb]
    split_ifs
    · cases b
      · exact ih
      · exact ⟨_, rfl⟩
    · exact ih

theorem primaryKeyPass_total (rows : List Row) (values : List Str) :
    ∀ (cols : List Column) (i : Nat), i + cols.length ≤ values.length →
      (∀ r ∈ rows, i + cols.length ≤ r.values.length) →
      ∃ r, primaryKeyPass rows values cols i = some r
  | [], _, _, _ => ⟨none, rfl⟩
  | c :: cs, i, h, hrows => by
    have hi : i < values.length := by simp only [List.length_cons] at h; omega
    have ih := primaryKeyPass_total rows values cs (i + 1)
      (by simp only [List.length_cons] at h; omega)
      (fun r hr => by have := hrows r hr; simp only [List.length_cons] at this; omega)
    obtain ⟨b, hb⟩ := scanRows_total values i hi rows
      (fun r hr => by have := hrows r hr; simp only [List.length_cons] at this; omega)
    simp only [primaryKeyPass, hb, List.getElem?_eq_getElem hi]
    split_ifs
    · exact ⟨_, rfl⟩
    · cases b
      · exact ih
      · exact ⟨_, rfl⟩
    · exact ih

/-- A NOT NULL column with an empty value stops the first loop. -/
theorem notNullPass_hit (values : List Str) :
    ∀ (cols : List Column) (i k : Nat) (c : Column), cols[k]? = some c →
      c.hasConstraint NOT_NULL = true → values[i + k]? = some [] →
      ∃ msg, notNullPass values cols i = some (some msg)
  | [], _, k, _, hc, _, _ => by simp at hc
  | d :: ds, i, 0, c, hc, hflag, hv => by
    simp only [List.getElem?_cons_zero, Option.some.injEq] at hc
    subst hc
    simp only [Nat.add_zero] at hv
    simp only [notNullPass, hflag, hv, if_true, List.isEmpty_nil]
    exact ⟨_, rfl⟩
  | d :: ds, i, k + 1, c, hc, hflag, hv => by
    simp only [List.getElem?_cons_succ] at hc
    have ih := notNullPass_hit values ds (i + 1) k c hc hflag
      (by rw [show i + 1 + k = i + (k + 1) by omega]; exact hv)
    have hi : i < values.length := by
      have := (List.getElem?_eq_some.1 hv).1
      omega
    simp only [notNullPass, List.getElem?_eq_getElem hi]
    split_ifs
    · exact ⟨_, rfl⟩
    · exact ih
    · exact ih

/-- A UNIQUE column whose value is already stored stops the second loop. -/
theorem uniquePass_hit (rows : List Row) (values : List Str) :
    ∀ (cols : List Column) (i k : Nat) (c : Column), i + cols.length ≤ values.length →
      (∀ r ∈ rows, i + cols.length ≤ r.values.length) →
      cols[k]? = some c → c.hasConstraint UNIQUE = true →
      scanRows values (i + k) rows = some true →
      ∃ msg, uniquePass rows values cols i = some (some msg)
  | [], _, k, _, _, _, hc, _, _ => by simp at hc
  | d :: ds, i, 0, c, _, _, hc, hflag, hs => by
    simp only [List.getElem?_cons_zero, Option.some.injEq] at hc
    subst hc
    simp only [Nat.add_zero] at hs
    simp only [uniquePass, hflag, hs, if_true]
    exact ⟨_, rfl⟩
  | d :: ds, i, k + 1, c, h, hrows, hc, hflag, hs => by
    simp only [List.getElem?_cons_succ] at hc
    have hi : i < values.length := by simp only [List.length_cons] at h; omega
    have ih := uniquePass_hit rows values ds (i + 1) k c
      (by simp only [List.length_cons] at h; omega)
      (fun r hr => by have := hrows r hr; simp only [List.length_cons] at this; omega)
      hc hflag (by rw [show i + 1 + k = i + (k + 1) by omega]; exact hs)
    obtain ⟨b, hb⟩ := scanRows_total values i hi rows
      (fun r hr => by have := hrows r hr; simp only [List.length_cons] at this; omega)
    simp only [uniquePass, hb]
    split_ifs
    · cases b
      · exact ih
      · exact ⟨_, rfl⟩
    · exact ih

/-- A PRIMARY KEY column whose value is already stored stops the third loop. -/
theorem primaryKeyPass_hit (rows : List Row) (values : List Str) :
    ∀ (cols : List Column) (i k : Nat) (c : Column), i + cols.length ≤ values.length →
      (∀ r ∈ rows, i + cols.length ≤ r.values.length) →
      cols[k]? = some c → c.hasConstraint PRIMARY_KEY = true →
      scanRows values (i + k) rows = some true →
      ∃ msg, primaryKeyPass rows values cols i = some (some msg)
  | [], _, k, _, _, _, hc, _, _ => by simp at hc
  | d :: ds, i, 0, c, h, _, hc, hflag, hs => by
    simp only [List.getElem?_cons_zero, Option.some.injEq] at hc
    subst hc
    have hi : i < values.length := by simp only [List.length_cons] at h; omega
    simp only [Nat.add_zero] at hs
    simp only [primaryKeyPass, hflag, hs, if_true, List.getElem?_eq_getElem hi]
    split_ifs
    · exact ⟨_, rfl⟩
    · exact ⟨_, rfl⟩
  | d :: ds, i, k + 1, c, h, hrows, hc, hflag, hs => by
    simp only [List.getElem?_cons_succ] at hc
    have hi : i < values.length := by simp only [List.length_cons] at h; omega
    have ih := primaryKeyPass_hit rows values ds (i + 1) k c
      (by simp only [List.length_cons] at h; omega)
      (fun r hr => by have := hrows r hr; simp only [List.length_cons] at this; omega)
      hc hflag (by rw [show i + 1 + k = i + (k + 1) by omega]; exact hs)
    obtain ⟨b, hb⟩ := scanRows_total values i hi rows
      (fun r hr => by have := hrows r hr; simp only [List.length_cons] at this; omega)
    simp only [primaryKeyPass, hb, List.getElem?_eq_getElem hi]
    split_ifs
    · exact ⟨_, rfl⟩
    · cases b
      · exact ih
      · exact ⟨_, rfl⟩
    · exact ih

/-- When the arity matches and `validateConstraints` answers `false`, `insertRow`
returns `false` and the table is untouched. -/
theorem insertRow_of_validate_false (t : Table) (values : List Str)
    (hlen : values.length = t.columns.length)
    (hv : ∃ m, t.validateConstraints values = some (false, m)) :
    ∃ out, t.insertRow values = some ⟨false, t, out⟩ := by
  obtain ⟨m, hm⟩ := hv
  obtain ⟨r, hr⟩ := typePass_total values t.columns 0 (by omega)
  simp only [Table.insertRow, hlen, ne_eq, not_true_eq_false, if_false, hr, hm]
  cases r
  · exact ⟨_, rfl⟩
  · exact ⟨_, rfl⟩

/-- A stored duplicate in a UNIQUE or PRIMARY KEY column makes
`validateConstraints` answer `false`. -/
theorem validateConstraints_duplicate (t : Table) (values : List Str) (i : Nat) (c : Column)
    (v : Str) (hlen : values.length = t.columns.length)
    (harity : ∀ r ∈ t.rows, r.values.length = t.columns.length)
    (hc : t.columns[i]? = some c)
    (hflag : c.hasConstraint UNIQUE = true ∨ c.hasConstraint PRIMARY_KEY = true)
    (hv : values[i]? = some v) (hdup : ∃ r ∈ t.rows, r.values[i]? = some v) :
    ∃ m, t.validateConstraints values = some (false, m) := by
  have hi : i < t.columns.length := (List.getElem?_eq_some.1 hc).1
  have hscan : scanRows values (0 + i) t.rows = some true := by
    rw [Nat.zero_add]
    exact scanRows_eq_true values i v hv t.rows (fun r hr => by rw [harity r hr]; exact hi) hdup
  have hrows : ∀ r ∈ t.rows, 0 + t.columns.length ≤ r.values.length :=
    fun r hr => by rw [harity r hr]; omega
  obtain ⟨r1, h1⟩ := notNullPass_total values t.columns 0 (by omega)
  obtain ⟨r2, h2⟩ := uniquePass_total t.rows values t.columns 0 (by omega) hrows
  simp only [Table.validateConstraints, h1, h2]
  cases r1 with
  | some m1 => exact ⟨_, rfl⟩
  | none =>
    cases r2 with
    | some m2 => exact ⟨_, rfl⟩
    | none =>
      rcases hflag with hu | hp
      · obtain ⟨m, hm⟩ := uniquePass_hit t.rows values t.columns 0 i c (by omega) hrows hc hu hscan
        rw [hm] at h2
        cases h2
      · obtain ⟨m, hm⟩ :=
          primaryKeyPass_hit t.rows values t.columns 0 i c (by omega) hrows hc hp hscan
        simp only [hm]
        exact ⟨_, rfl⟩

/-- A failed `insertRow` hands back the table it was given. -/
theorem insertRow_table_of_not_ok (t : Table) (values : List Str) (r : TableResult)
    (h : t.insertRow values = some r) (hok : r.ok = false) : r.table = t := by
  unfold Table.insertRow at h
  split_ifs at h
  · cases h; rfl
  · split at h
    · cases h
    · cases h; rfl
    · split at h
      · cases h
      · cases h; rfl
      · cases h; cases hok

/-- A successful `insertRow` appends the values as the last record. -/
theorem insertRow_table_of_ok (t : Table) (values : List Str) (r : TableResult)
    (h : t.insertRow values = some r) (hok : r.ok = true) :
    r.table = { t with rows := t.rows ++ [⟨values⟩] } ∧ values.length = t.columns.length := by
  unfold Table.insertRow at h
  split_ifs at h with hlen
  · cases h; cases hok
  · split at h
    · cases h
    · cases h; cases hok
    · split at h
      · cases h
      · cases h; cases hok
      · cases h; exact ⟨rfl, not_not.1 hlen⟩

/-- The arity test of `insertRow` comes first. -/
theorem insertRow_of_length_ne (t : Table) (values : List Str)
    (hlen : ¬ values.length = t.columns.length) :
    t.insertRow values = some ⟨false, t, mismatchMsg t.columns.length values.length⟩ := by
  simp only [Table.insertRow, ne_eq, hlen, not_false_eq_true, if_true]

/-- On a table whose records have schema arity, `insertRow` returns. -/
theorem insertRow_total (t : Table) (values : List Str)
    (harity : ∀ r ∈ t.rows, r.values.length = t.columns.length) :
    ∃ r, t.insertRow values = some r := by
  by_cases hlen : values.length = t.columns.length
  · obtain ⟨r0, h0⟩ := typePass_total values t.columns 0 (by omega)
    have hrows : ∀ r ∈ t.rows, 0 + t.columns.length ≤ r.values.length :=
      fun r hr => by rw [harity r hr]; omega
    obtain ⟨r1, h1⟩ := notNullPass_total values t.columns 0 (by omega)
    obtain ⟨r2, h2⟩ := uniquePass_total t.rows values t.columns 0 (by omega) hrows
    obtain ⟨r3, h3⟩ := primaryKeyPass_total t.rows values t.columns 0 (by omega) hrows
    simp only [Table.insertRow, hlen, ne_eq, not_true_eq_false, if_false, h0,
      Table.validateConstraints, h1, h2, h3]
    cases r0 <;> cases r1 <;> cases r2 <;> cases r3 <;> exact ⟨_, rfl⟩
  · exact ⟨_, insertRow_of_length_ne t values hlen⟩

/-! ## Insertion: rejection and atomicity -/

/-- C1: on a table whose records all have schema arity, a value list whose
value in a UNIQUE or PRIMARY_KEY column equals the value some stored record
has in that column is rejected by `insertRow` and the table, hence its number
of records, is unchanged; in the scenario `CREATE TABLE t`, `ADD COLUMN id int
PRIMARY`, `INSERT INTO t VALUES (1)` twice, the first insert stores the row
and the second is refused with the duplicate-primary-key message, leaving
exactly one row. -/
theorem insertRow_rejects_duplicate (t : Table) (values : List Str) (i : Nat) (c : Column)
    (v : Str) (harity : ∀ r ∈ t.rows, r.values.length = t.columns.length)
    (hc : t.columns[i]? = some c)
    (hflag : c.hasConstraint UNIQUE = true ∨ c.hasConstraint PRIMARY_KEY = true)
    (hv : values[i]? = some v) (hdup : ∃ r ∈ t.rows, r.values[i]? = some v) :
    (∃ out, t.insertRow values = some ⟨false, t, out⟩) ∧
    (∀ d : Disk,
      runLines (DatabaseEngine.new d)
          ["CREATE TABLE t".toList, "ADD COLUMN id int PRIMARY".toList,
            "INSERT INTO t VALUES (1)".toList] []
        = some ⟨engineOf idTableOne d,
            "Table t created successfully.".toList ++ endl
              ++ "Column id added successfully.".toList ++ endl
              ++ "Record inserted.".toList ++ endl⟩ ∧
      (engineOf idTableOne d).executeCommand "INSERT INTO t VALUES (1)".toList
        = some ⟨engineOf idTableOne d,
            "Error: Duplicate primary key value in column id".toList ++ endl⟩) := by
  refine ⟨?_, fun d => ⟨rfl, rfl⟩⟩
  by_cases hlen : values.length = t.columns.length
  · exact insertRow_of_validate_false t values hlen
      (validateConstraints_duplicate t values i c v hlen harity hc hflag hv hdup)
  · exact ⟨_, insertRow_of_length_ne t values hlen⟩

/-- Witness of C1: the stored key `1` of `idTableOne` offered again. -/
theorem insertRow_rejects_duplicate_witness :
    (∀ r ∈ idTableOne.rows, r.values.length = idTableOne.columns.length) ∧
    idTableOne.columns[0]? = some ⟨"id".toList, "int".toList, PRIMARY_KEY⟩ ∧
    ["1".toList][0]? = some "1".toList ∧
    (∃ r ∈ idTableOne.rows, r.values[0]? = some "1".toList) ∧
    (∃ out, idTableOne.insertRow ["1".toList] = some ⟨false, idTableOne, out⟩) :=
  ⟨by decide, rfl, rfl, ⟨⟨["1".toList]⟩, by decide, rfl⟩,
    (insertRow_rejects_duplicate idTableOne ["1".toList] 0
      ⟨"id".toList, "int".toList, PRIMARY_KEY⟩ "1".toList (by decide) rfl
      (Or.inr (by decide)) rfl ⟨⟨["1".toList]⟩, by decide, rfl⟩).1⟩

/-- C2: for every table, a value list whose value in a NOT_NULL column is the
empty string is rejected by `insertRow` and nothing is appended, whatever the
other values are. -/
theorem insertRow_rejects_empty_not_null (t : Table) (values : List Str) (i : Nat)
    (c : Column) (hc : t.columns[i]? = some c) (hflag : c.hasConstraint NOT_NULL = true)
    (hv : values[i]? = some []) :
    ∃ out, t.insertRow values = some ⟨false, t, out⟩ := by
  by_cases hlen : values.length = t.columns.length
  · apply insertRow_of_validate_false t values hlen
    obtain ⟨m, hm⟩ := notNullPass_hit values t.columns 0 i c hc hflag
      (by rw [Nat.zero_add]; exact hv)
    exact ⟨m, by simp only [Table.validateConstraints, hm]⟩
  · exact ⟨_, insertRow_of_length_ne t values hlen⟩

/-- Witness of C2: an empty second value for a NOT_NULL second column. -/
theorem insertRow_rejects_empty_not_null_witness :
    (⟨"t".toList, [⟨"a".toList, "text".toList, 0⟩, ⟨"b".toList, "text".toList, NOT_NULL⟩],
        []⟩ : Table).columns[1]? = some ⟨"b".toList, "text".toList, NOT_NULL⟩ ∧
    Column.hasConstraint ⟨"b".toList, "text".toList, NOT_NULL⟩ NOT_NULL = true ∧
    ["x".toList, []][1]? = some [] ∧
    ∃ out, Table.insertRow
        ⟨"t".toList, [⟨"a".toList, "text".toList, 0⟩, ⟨"b".toList, "text".toList, NOT_NULL⟩], []⟩
        ["x".toList, []]
      = some ⟨false,
          ⟨"t".toList, [⟨"a".toList, "text".toList, 0⟩, ⟨"b".toList, "text".toList, NOT_NULL⟩],
            []⟩, out⟩ :=
  ⟨rfl, by decide, rfl,
    insertRow_rejects_empty_not_null _ ["x".toList, []] 1 ⟨"b".toList, "text".toList, NOT_NULL⟩
      rfl (by decide) rfl⟩

/-- C3: a value list whose length differs from the number of columns makes
`insertRow` fail with the column-count-mismatch message and nothing else
printed (no type or constraint check has run), the table being unchanged. -/
theorem insertRow_arity_mismatch (t : Table) (values : List Str)
    (hlen : values.length ≠ t.columns.length) :
    t.insertRow values = some ⟨false, t,
      "Error: Column count mismatch. Expected ".toList ++ showNat t.columns.length
        ++ ", got ".toList ++ showNat values.length ++ endl⟩ := by
  simp only [Table.insertRow, ne_eq, hlen, not_false_eq_true, if_true, mismatchMsg]

/-- Witness of C3: two values for the one-column table `idTableOne`; the
second value would fail the type check of no column and the first repeats the
stored key, yet only the arity is reported. -/
theorem insertRow_arity_mismatch_witness :
    ["1".toList, "x".toList].length ≠ idTableOne.columns.length ∧
    idTableOne.insertRow ["1".toList, "x".toList] = some ⟨false, idTableOne,
      "Error: Column count mismatch. Expected 1, got 2".toList ++ endl⟩ :=
  ⟨by decide, insertRow_arity_mismatch idTableOne ["1".toList, "x".toList] (by decide)⟩

/-- C4: whenever `insertRow` returns failure, whatever the reason, the table it
leaves (name, column list and record list) is the table it was called on. -/
theorem insertRow_failure_leaves_table (t : Table) (values : List Str) (r : TableResult)
    (h : t.insertRow values = some r) (hok : r.ok = false) :
    r.table = t ∧ r.table.columns = t.columns ∧ r.table.rows = t.rows := by
  have := insertRow_table_of_not_ok t values r h hok
  exact ⟨this, by rw [this], by rw [this]⟩

/-- Witness of C4: a type failure on `idTableOne`. -/
theorem insertRow_failure_leaves_table_witness :
    idTableOne.insertRow ["x".toList]
      = some ⟨false, idTableOne, "Error: Invalid integer value for column id".toList ++ endl⟩ ∧
    (⟨false, idTableOne, "Error: Invalid integer value for column id".toList ++ endl⟩ :
      TableResult).table.rows = idTableOne.rows :=
  ⟨rfl, (insertRow_failure_leaves_table idTableOne ["x".toList]
    ⟨false, idTableOne, "Error: Invalid integer value for column id".toList ++ endl⟩
    rfl rfl).2.2⟩

/-! ## The value tokenizer -/

/-- Counterexample to C6: on the input `'a,b', 2, 'c'` the tokenizer does not
return the fields `a,b`, `2`, `c`. -/
theorem tokenizer_keeps_spaces :
    DatabaseEngine.parseValues "'a,b', 2, 'c'".toList
      ≠ ["a,b".toList, "2".toList, "c".toList] := by
  decide

/-- C6 (amended): on the input `'a,b', 2, 'c'` the tokenizer returns exactly
three fields, `a,b`, then ` 2` and ` c` each with the space that follows the
comma kept in front. -/
theorem parseValues_example :
    DatabaseEngine.parseValues "'a,b', 2, 'c'".toList
      = ["a,b".toList, " 2".toList, " c".toList] := by
  decide

/-! ## The arity invariant -/

/-- Counterexample to C7: after `addColumn a`, `insertRow (1)`, `addColumn b`
the table has two columns and a record of one value. -/
theorem reachable_arity_broken :
    ∃ t : Table, Table.Reachable t ∧ ∃ r ∈ t.rows, r.values.length ≠ t.columns.length := by
  refine ⟨⟨"t".toList, [⟨"a".toList, "int".toList, 0⟩, ⟨"b".toList, "int".toList, 0⟩],
    [⟨["1".toList]⟩]⟩, ?_, ⟨["1".toList]⟩, by decide, by decide⟩
  have h0 := Table.Reachable.new "t".toList
  have h1 := Table.Reachable.addColumn "a".toList "int".toList 0 h0
  have h2 := Table.Reachable.insertRow ["1".toList]
    ⟨true, ⟨"t".toList, [⟨"a".toList, "int".toList, 0⟩], [⟨["1".toList]⟩]⟩, []⟩ h1 rfl
  exact Table.Reachable.addColumn "b".toList "int".toList 0 h2

/-- C7 (amended): in every table state reachable from an empty table by
`addColumn` and `insertRow` calls in which `addColumn` is only called while
the table holds no record, every record has exactly as many values as the
table has columns, and every further `insertRow` call returns. -/
theorem built_arity (t : Table) (h : Table.Built t) :
    (∀ r ∈ t.rows, r.values.length = t.columns.length) ∧
    (∀ values, ∃ res, t.insertRow values = some res) := by
  have key : ∀ r ∈ t.rows, r.values.length = t.columns.length := by
    induction h with
    | new name => intro r hr; cases hr
    | addColumn name type constraints _ hrows _ =>
      intro r hr
      simp only [Table.addColumn] at hr
      rw [hrows] at hr
      cases hr
    | @insertRow t0 values res _ hins ih =>
      cases hok : res.ok with
      | false =>
        rw [insertRow_table_of_not_ok t0 values res hins hok]
        exact ih
      | true =>
        obtain ⟨htab, hlen⟩ := insertRow_table_of_ok t0 values res hins hok
        rw [htab]
        intro r hr
        rcases List.mem_append.1 hr with hr | hr
        · exact ih r hr
        · rw [List.mem_singleton.1 hr]
          exact hlen
  exact ⟨key, fun values => insertRow_total t values key⟩

/-- Witness of C7: `idTableOne` is built by one `addColumn` and one `insertRow`. -/
theorem built_arity_witness :
    Table.Built idTableOne ∧ ∀ r ∈ idTableOne.rows, r.values.length = idTableOne.columns.length :=
  have hb : Table.Built idTableOne :=
    Table.Built.insertRow ["1".toList] ⟨true, idTableOne, []⟩
      (Table.Built.addColumn "id".toList "int".toList PRIMARY_KEY
        (Table.Built.new "t".toList) rfl) rfl
  ⟨hb, (built_arity idTableOne hb).1⟩

/-! ## First occurrences -/

/-- Counterexample to C8: three one-column tables flagged UNIQUE or
PRIMARY_KEY and a value that occurs in no record, where `insertRow` does not
succeed: the empty string in a primary-key column, a non-numeric value in an
`int` column, and a table holding a record without values, whose missing
value the row scan reads. -/
theorem first_occurrence_not_accepted :
    ((∀ r ∈ idTable.rows, r.values[0]? ≠ some []) ∧
      idTable.insertRow [[]] = some ⟨false, idTable,
        "Error: Primary key column id cannot be NULL".toList ++ endl⟩) ∧
    ((∀ r ∈ uniqueIntTable.rows, r.values[0]? ≠ some "x".toList) ∧
      uniqueIntTable.insertRow ["x".toList] = some ⟨false, uniqueIntTable,
        "Error: Invalid integer value for column n".toList ++ endl⟩) ∧
    ((∀ r ∈ shortRowTable.rows, r.values[0]? ≠ some "x".toList) ∧
      Table.Reachable shortRowTable ∧
      shortRowTable.insertRow ["x".toList] = none) := by
  refine ⟨⟨by decide, rfl⟩, ⟨by decide, rfl⟩, by decide, ?_, rfl⟩
  exact Table.Reachable.addColumn "n".toList "text".toList UNIQUE
    (Table.Reachable.insertRow [] ⟨true, ⟨"t".toList, [], [⟨[]⟩]⟩, []⟩
      (Table.Reachable.new "t".toList) rfl)

/-- The type check accepts a value made of digits and `-` only. -/
theorem any_badIntChar_eq_false (v : Str)
    (h : ∀ ch ∈ v, ch.isDigit = true ∨ ch = '-') : v.any badIntChar = false := by
  rw [List.any_eq_false]
  intro ch hch
  rcases h ch hch with hd | hm
  · simp [badIntChar, hd]
  · simp [badIntChar, hm]

/-- C8 (amended): for every table whose single column is flagged UNIQUE or
PRIMARY_KEY and whose records all have one value, `insertRow` of a one-value
list succeeds and appends the record whenever the value occurs in no record,
consists of digits and `-` only if the column has type `int`, and is not the
empty string if the column is flagged NOT_NULL or PRIMARY_KEY. -/
theorem insertRow_accepts_first_occurrence (t : Table) (c : Column) (v : Str)
    (hcols : t.columns = [c])
    (_hflag : c.hasConstraint UNIQUE = true ∨ c.hasConstraint PRIMARY_KEY = true)
    (harity : ∀ r ∈ t.rows, r.values.length = 1)
    (hnew : ∀ r ∈ t.rows, r.values[0]? ≠ some v)
    (htype : c.type = "int".toList → ∀ ch ∈ v, ch.isDigit = true ∨ ch = '-')
    (hnull : c.hasConstraint NOT_NULL = true ∨ c.hasConstraint PRIMARY_KEY = true → v ≠ []) :
    t.insertRow [v] = some ⟨true, { t with rows := t.rows ++ [⟨[v]⟩] }, []⟩ := by
  have hscan : scanRows [v] 0 t.rows = some false :=
    scanRows_eq_false [v] 0 v rfl t.rows (fun r hr => by rw [harity r hr]; omega) hnew
  have htp : typePass [v] [c] 0 = some none := by
    simp only [typePass, List.getElem?_cons_zero]
    split_ifs with h1 h2
    · rw [any_badIntChar_eq_false v (htype h1)] at h2
      cases h2
    · rfl
    · rfl
  have hnn : notNullPass [v] [c] 0 = some none := by
    simp only [notNullPass, List.getElem?_cons_zero]
    split_ifs with h1 h2
    · exact absurd (List.isEmpty_iff.1 h2) (hnull (Or.inl h1))
    · rfl
    · rfl
  have hun : uniquePass t.rows [v] [c] 0 = some none := by
    simp only [uniquePass, hscan]
    split_ifs <;> rfl
  have hpk : primaryKeyPass t.rows [v] [c] 0 = some none := by
    simp only [primaryKeyPass, hscan, List.getElem?_cons_zero]
    split_ifs with h1 h2
    · exact absurd (List.isEmpty_iff.1 h2) (hnull (Or.inr h1))
    · rfl
    · rfl
  simp only [Table.insertRow, Table.validateConstraints, hcols, List.length_singleton, ne_eq,
    not_true_eq_false, if_false, htp, hnn, hun, hpk]

/-- Witness of C8: the key `2` offered to `idTableOne`, which holds the key `1`. -/
theorem insertRow_accepts_first_occurrence_witness :
    idTableOne.columns = [⟨"id".toList, "int".toList, PRIMARY_KEY⟩] ∧
    (∀ r ∈ idTableOne.rows, r.values.length = 1) ∧
    (∀ r ∈ idTableOne.rows, r.values[0]? ≠ some "2".toList) ∧
    idTableOne.insertRow ["2".toList]
      = some ⟨true, { idTableOne with rows := idTableOne.rows ++ [⟨["2".toList]⟩] }, []⟩ :=
  ⟨rfl, by decide, by decide,
    insertRow_accepts_first_occurrence idTableOne ⟨"id".toList, "int".toList, PRIMARY_KEY⟩
      "2".toList rfl (Or.inr (by decide)) (by decide) (by decide)
      (fun _ => by decide) (fun _ => by decide)⟩

/-! ## Commands -/

/-- C9 (the code at the failing input): the values `1`, `2` pass the checks of
a table with two `int` columns, and `x`, `y` those of a table with two `text`
columns; written in the advertised form, with a comma and a space between
them, the first command is refused with a type error on the second column and
stores nothing, and the second stores the record `x`, ` y`, whose second value
starts with the space, instead of `x`, `y`. -/
theorem insertInto_advertised_form (d : Disk) :
    (intPairTable.insertRow ["1".toList, "2".toList]
        = some ⟨true, { intPairTable with rows := [⟨["1".toList, "2".toList]⟩] }, []⟩ ∧
      (engineOf intPairTable d).executeCommand "INSERT INTO t VALUES (1, 2)".toList
        = some ⟨engineOf intPairTable d,
            "Error: Invalid integer value for column b".toList ++ endl⟩) ∧
    (textPairTable.insertRow ["x".toList, "y".toList]
        = some ⟨true, { textPairTable with rows := [⟨["x".toList, "y".toList]⟩] }, []⟩ ∧
      (engineOf textPairTable d).executeCommand "INSERT INTO t VALUES (x, y)".toList
        = some ⟨engineOf { textPairTable with rows := [⟨["x".toList, " y".toList]⟩] } d,
            "Record inserted.".toList ++ endl⟩) :=
  ⟨⟨rfl, rfl⟩, rfl, rfl⟩

/-- C10: in an engine state without current table, every input line whose
first two tokens are `ADD` and `COLUMN`, whatever follows, makes
`executeCommand` print the no-current-table message and return the engine
unchanged: same tables, same current-table reference, same file. -/
theorem executeCommand_addColumn_no_table (e : DatabaseEngine) (command : Str)
    (rest : List Str) (hcur : e.currentTable = TablePtr.null)
    (htok : DatabaseEngine.parseCommand command = "ADD".toList :: "COLUMN".toList :: rest) :
    e.executeCommand command
      = some ⟨e, "No table selected. Create a table first.".toList ++ endl⟩ := by
  have h0 : ∀ w : String, tokenIs ("ADD".toList :: "COLUMN".toList :: rest) 0 w
      = some (decide ("ADD".toList = w.toList)) := fun _ => rfl
  have h1 : ∀ w : String, tokenIs ("ADD".toList :: "COLUMN".toList :: rest) 1 w
      = some (decide ("COLUMN".toList = w.toList)) := fun _ => by
    simp only [tokenIs, List.getElem?_cons_succ, List.getElem?_cons_zero]
  have d1 : decide ("ADD".toList = "CREATE".toList) = false := by decide
  have d2 : decide ("ADD".toList = "INSERT".toList) = false := by decide
  have d3 : decide ("ADD".toList = "SELECT".toList) = false := by decide
  have d4 : decide ("ADD".toList = "SAVE".toList) = false := by decide
  have d5 : decide ("ADD".toList = "LOAD".toList) = false := by decide
  have d6 : decide ("ADD".toList = "ADD".toList) = true := by decide
  have d7 : decide ("COLUMN".toList = "COLUMN".toList) = true := by decide
  simp only [DatabaseEngine.executeCommand, htok, DatabaseEngine.addColumn, hcur, h0, h1,
    d1, d2, d3, d4, d5, d6, d7, andAlso, noTableMsg, reduceCtorEq, if_false, decide_True]

/-- Witness of C10: `ADD COLUMN id int PRIMARY` typed before any `CREATE TABLE`. -/
theorem executeCommand_addColumn_no_table_witness :
    (DatabaseEngine.new ⟨none, true⟩).currentTable = TablePtr.null ∧
    DatabaseEngine.parseCommand "ADD COLUMN id int PRIMARY".toList
      = "ADD".toList :: "COLUMN".toList :: ["id".toList, "int".toList, "PRIMARY".toList] ∧
    (DatabaseEngine.new ⟨none, true⟩).executeCommand "ADD COLUMN id int PRIMARY".toList
      = some ⟨DatabaseEngine.new ⟨none, true⟩,
          "No table selected. Create a table first.".toList ++ endl⟩ :=
  ⟨rfl, by decide,
    executeCommand_addColumn_no_table (DatabaseEngine.new ⟨none, true⟩)
      "ADD COLUMN id int PRIMARY".toList ["id".toList, "int".toList, "PRIMARY".toList]
      rfl (by decide)⟩

/-! ## Lines and tokens of a saved table -/

theorem splitLinesLoop_append (a : Str) (h : ∀ ch ∈ a, ch ≠ Char.ofNat 10) :
    ∀ (s cur : Str), splitLinesLoop (a ++ s) cur = splitLinesLoop s (cur ++ a) := by
  induction a with
  | nil => intro s cur; simp
  | cons x xs ih =>
    intro s cur
    have hx : x ≠ Char.ofNat 10 := h x (List.mem_cons_self _ _)
    simp only [List.cons_append, splitLinesLoop, hx, if_false, List.append_eq]
    rw [ih (fun ch hch => h ch (List.mem_cons_of_mem _ hch))]
    simp

/-- A newline-free text followed by `endl` is read by `getline` as one line. -/
theorem splitLines_line (a : Str) (h : ∀ ch ∈ a, ch ≠ Char.ofNat 10) (s : Str) :
    splitLines (a ++ endl ++ s) = a :: splitLines s := by
  simp only [splitLines, endl, List.append_assoc, List.singleton_append]
  rw [splitLinesLoop_append a h]
  simp [splitLinesLoop]

theorem wsTokensLoop_append (v : Str) (h : wsFree v) :
    ∀ (s cur : Str) (toks : List Str),
      wsTokensLoop (v ++ s) cur toks = wsTokensLoop s (cur ++ v) toks := by
  induction v with
  | nil => intro s cur toks; simp
  | cons x xs ih =>
    intro s cur toks
    have hx : isSpace x = false := h x (List.mem_cons_self _ _)
    simp only [List.cons_append, wsTokensLoop, hx, Bool.false_eq_true, if_false,
      List.append_eq]
    rw [ih (fun ch hch => h ch (List.mem_cons_of_mem _ hch))]
    simp

/-- Tokenizing space-joined, whitespace-free, non-empty strings. -/
theorem wsTokensLoop_joinSp :
    ∀ (vs : List Str) (v cur : Str) (toks : List Str), wsFree v → cur ++ v ≠ [] →
      (∀ w ∈ vs, w ≠ [] ∧ wsFree w) →
      wsTokensLoop (joinSp (v :: vs)) cur toks = toks ++ (cur ++ v) :: vs
  | [], v, cur, toks, hv, hne, _ => by
    have := wsTokensLoop_append v hv [] cur toks
    simp only [List.append_nil] at this
    simp only [joinSp, this, wsTokensLoop, hne, if_false]
  | w :: ws, v, cur, toks, hv, hne, hvs => by
    have hw := hvs w (List.mem_cons_self _ _)
    have ih := wsTokensLoop_joinSp ws w [] (toks ++ [cur ++ v]) hw.2
      (by simpa using hw.1) (fun u hu => hvs u (List.mem_cons_of_mem _ hu))
    have hsp : isSpace ' ' = true := by decide
    simp only [joinSp, wsTokensLoop_append v hv, wsTokensLoop, hsp, if_true, hne, if_false, ih]
    simp

theorem wsTokens_joinSp (vs : List Str) (h : ∀ w ∈ vs, w ≠ [] ∧ wsFree w) :
    wsTokens (joinSp vs) = vs := by
  cases vs with
  | nil => rfl
  | cons v vs =>
    have hv := h v (List.mem_cons_self _ _)
    have := wsTokensLoop_joinSp vs v [] [] hv.2 (by simpa using hv.1)
      (fun u hu => h u (List.mem_cons_of_mem _ hu))
    simpa [wsTokens] using this

theorem mem_joinSp : ∀ (vs : List Str) (ch : Char), ch ∈ joinSp vs →
    ch = ' ' ∨ ∃ v ∈ vs, ch ∈ v
  | [], ch, h => by cases h
  | [v], ch, h => Or.inr ⟨v, List.mem_singleton_self v, h⟩
  | v :: w :: vs, ch, h => by
    simp only [joinSp, List.mem_append, List.mem_cons] at h
    rcases h with h | h | h
    · exact Or.inr ⟨v, List.mem_cons_self _ _, h⟩
    · exact Or.inl h
    · rcases mem_joinSp (w :: vs) ch h with h | ⟨u, hu, hch⟩
      · exact Or.inl h
      · exact Or.inr ⟨u, List.mem_cons_of_mem _ hu, hch⟩

theorem joinSp_no_newline (vs : List Str) (h : ∀ w ∈ vs, wsFree w) :
    ∀ ch ∈ joinSp vs, ch ≠ Char.ofNat 10 := by
  intro ch hch heq
  rcases mem_joinSp vs ch hch with h1 | ⟨v, hv, hcv⟩
  · rw [h1] at heq; revert heq; decide
  · have := h v hv ch hcv
    rw [heq] at this
    revert this; decide

/-! ## Decimal rendering and reading of the constraint bits -/

theorem digitChar_facts : ∀ k, k < 10 →
    (Nat.digitChar k).isDigit = true ∧ (Nat.digitChar k).toNat - 48 = k ∧
    isSpace (Nat.digitChar k) = false ∧ Nat.digitChar k ≠ '-' ∧ Nat.digitChar k ≠ '+' := by
  decide

theorem toDigitsCore_spec : ∀ (fuel n : Nat) (ds : Str), n < fuel →
    ∃ X : Str, Nat.toDigitsCore 10 fuel n ds = X ++ ds ∧ X ≠ [] ∧
      (∀ c ∈ X, ∃ k, k < 10 ∧ c = Nat.digitChar k) ∧ digitsValue X = n
  | 0, _, _, h => by omega
  | fuel + 1, n, ds, h => by
    have hk : n % 10 < 10 := Nat.mod_lt _ (by omega)
    by_cases h0 : n / 10 = 0
    · refine ⟨[Nat.digitChar (n % 10)], ?_, by simp, ?_, ?_⟩
      · simp [Nat.toDigitsCore, h0]
      · intro c hc
        exact ⟨n % 10, hk, List.mem_singleton.1 hc⟩
      · have := (digitChar_facts (n % 10) hk).2.1
        simp only [digitsValue, List.foldl_cons, List.foldl_nil, this]
        omega
    · obtain ⟨X, hX, _, hdig, hval⟩ :=
        toDigitsCore_spec fuel (n / 10) (Nat.digitChar (n % 10) :: ds) (by omega)
      refine ⟨X ++ [Nat.digitChar (n % 10)], ?_, by simp, ?_, ?_⟩
      · simp [Nat.toDigitsCore, h0, hX]
      · intro c hc
        rcases List.mem_append.1 hc with hc | hc
        · exact hdig c hc
        · exact ⟨n % 10, hk, List.mem_singleton.1 hc⟩
      · have := (digitChar_facts (n % 10) hk).2.1
        simp only [digitsValue, List.foldl_append, List.foldl_cons, List.foldl_nil, this] at hval ⊢
        omega

theorem showNat_spec (n : Nat) :
    showNat n ≠ [] ∧ (∀ c ∈ showNat n, ∃ k, k < 10 ∧ c = Nat.digitChar k) ∧
      digitsValue (showNat n) = n := by
  obtain ⟨X, hX, hne, hdig, hval⟩ := toDigitsCore_spec (n + 1) n [] (by omega)
  simp only [List.append_nil] at hX
  simp only [showNat, Nat.toDigits, hX]
  exact ⟨hne, hdig, hval⟩

theorem showNat_wsFree (n : Nat) : wsFree (showNat n) := by
  intro ch hch
  obtain ⟨k, hk, rfl⟩ := (showNat_spec n).2.1 ch hch
  exact (digitChar_facts k hk).2.2.1

/-- Reading back the decimal rendering of an `unsigned int`. -/
theorem readUnsigned_showNat (n : Nat) (h : n < 4294967296) : readUnsigned (showNat n) = n := by
  obtain ⟨hne, hdig, hval⟩ := showNat_spec n
  have hall : ∀ c ∈ showNat n, c.isDigit = true := by
    intro c hc
    obtain ⟨k, hk, rfl⟩ := hdig c hc
    exact (digitChar_facts k hk).1
  have htw : (showNat n).takeWhile Char.isDigit = showNat n :=
    List.takeWhile_eq_self_iff.2 hall
  have hhead : (showNat n).head? ≠ some '-' ∧ (showNat n).head? ≠ some '+' := by
    cases hs : showNat n with
    | nil => exact absurd hs hne
    | cons x xs =>
      obtain ⟨k, hk, rfl⟩ := hdig x (by rw [hs]; exact List.mem_cons_self _ _)
      have := digitChar_facts k hk
      simp only [List.head?_cons, ne_eq, Option.some.injEq]
      exact ⟨this.2.2.2.1, this.2.2.2.2⟩
  simp only [readUnsigned, hhead.1, hhead.2, or_self, if_false, htw, hne, hval,
    decide_False, Bool.false_eq_true]
  rw [if_neg (by omega)]

/-! ## Save followed by load -/

theorem columnLine_eq_joinSp (c : Column) :
    columnLine c = joinSp [c.name, c.type, showNat c.constraints] := by
  simp [columnLine, joinSp]

theorem columnLine_tokens (c : Column) (h : c.storable) :
    wsTokens (columnLine c) = [c.name, c.type, showNat c.constraints] := by
  rw [columnLine_eq_joinSp]
  apply wsTokens_joinSp
  intro w hw
  simp only [List.mem_cons, List.mem_singleton, List.not_mem_nil, or_false] at hw
  rcases hw with rfl | rfl | rfl
  · exact h.1
  · exact h.2.1
  · exact ⟨(showNat_spec _).1, showNat_wsFree _⟩

theorem columnLine_no_newline (c : Column) (h : c.storable) :
    ∀ ch ∈ columnLine c, ch ≠ Char.ofNat 10 := by
  rw [columnLine_eq_joinSp]
  apply joinSp_no_newline
  intro w hw
  simp only [List.mem_cons, List.mem_singleton, List.not_mem_nil, or_false] at hw
  rcases hw with rfl | rfl | rfl
  · exact h.1.2
  · exact h.2.1.2
  · exact showNat_wsFree _

theorem splitLines_saveColumns : ∀ (cols : List Column) (s : Str),
    (∀ c ∈ cols, c.storable) →
    splitLines (saveColumns cols ++ s) = cols.map columnLine ++ splitLines s
  | [], s, _ => by simp [saveColumns]
  | c :: cs, s, h => by
    have hc := h c (List.mem_cons_self _ _)
    have ih := splitLines_saveColumns cs s (fun x hx => h x (List.mem_cons_of_mem _ hx))
    simp only [saveColumns, List.append_assoc, List.map_cons, List.cons_append]
    rw [← List.append_assoc, splitLines_line _ (columnLine_no_newline c hc), ih]

theorem splitLines_saveRows : ∀ (rows : List Row) (s : Str),
    (∀ r ∈ rows, r.storable) →
    splitLines (saveRows rows ++ s) = rows.map (fun r => joinSp r.values) ++ splitLines s
  | [], s, _ => by simp [saveRows]
  | r :: rs, s, h => by
    have hr := h r (List.mem_cons_self _ _)
    have ih := splitLines_saveRows rs s (fun x hx => h x (List.mem_cons_of_mem _ hx))
    simp only [saveRows, List.append_assoc, List.map_cons, List.cons_append]
    rw [← List.append_assoc,
      splitLines_line _ (joinSp_no_newline r.values (fun w hw => (hr.1 w hw).2)), ih]

/-- The lines of a saved table body followed by further text. -/
theorem splitLines_saveBody (t : Table) (tail : Str) (hcols : ∀ c ∈ t.columns, c.storable)
    (hrows : ∀ r ∈ t.rows, r.storable) :
    splitLines (t.saveBody ++ tail)
      = t.columns.map columnLine ++ "DATA".toList ::
          (t.rows.map (fun r => joinSp r.values) ++ "END".toList :: splitLines tail) := by
  have h1 : ∀ ch ∈ "DATA".toList, ch ≠ Char.ofNat 10 := by decide
  have h2 : ∀ ch ∈ "END".toList, ch ≠ Char.ofNat 10 := by decide
  simp only [Table.saveBody, List.append_assoc]
  rw [splitLines_saveColumns _ _ hcols, ← List.append_assoc, splitLines_line _ h1,
    splitLines_saveRows _ _ hrows, ← List.append_assoc, splitLines_line _ h2]

/-- The column loop of `loadFromFile` rebuilds the saved columns. -/
theorem loadColumns_saved : ∀ (cols : List Column) (t0 : Table) (rest : List Str) (out : Str),
    (∀ c ∈ cols, c.storable) →
    ∃ out1, loadColumns t0 (cols.map columnLine ++ "DATA".toList :: rest) out
      = some ⟨{ t0 with columns := t0.columns ++ cols }, rest, out1⟩
  | [], t0, rest, out, _ => by
    refine ⟨out, ?_⟩
    simp [loadColumns]
  | c :: cs, t0, rest, out, h => by
    have hc := h c (List.mem_cons_self _ _)
    have htok := columnLine_tokens c hc
    have hdata : columnLine c ≠ "DATA".toList := by
      intro heq
      rw [heq] at htok
      have h1 : wsTokens "DATA".toList = ["DATA".toList] := by decide
      rw [h1] at htok
      have := congrArg List.length htok
      simp at this
    have hnil : columnLine c ≠ [] := by
      intro heq
      rw [heq] at htok
      cases htok
    obtain ⟨out1, ih⟩ := loadColumns_saved cs
      (t0.addColumn c.name c.type c.constraints).1 rest
      (out ++ (t0.addColumn c.name c.type c.constraints).2)
      (fun x hx => h x (List.mem_cons_of_mem _ hx))
    refine ⟨out1, ?_⟩
    simp only [List.map_cons, List.cons_append, loadColumns, hdata, hnil, if_false, htok,
      readUnsigned_showNat c.constraints hc.2.2, List.append_eq]
    rw [ih]
    simp [Table.addColumn]

/-- What `insertRow` keeps of a table: name, columns, the arity of the records,
and the old records with at most the new one appended. -/
theorem insertRow_keeps (t : Table) (values : List Str) (res : TableResult)
    (h : t.insertRow values = some res)
    (harity : ∀ r ∈ t.rows, r.values.length = t.columns.length) :
    res.table.tableName = t.tableName ∧ res.table.columns = t.columns ∧
    (∀ r ∈ res.table.rows, r.values.length = res.table.columns.length) := by
  cases hok : res.ok with
  | false =>
    rw [insertRow_table_of_not_ok t values res h hok]
    exact ⟨rfl, rfl, harity⟩
  | true =>
    obtain ⟨htab, hlen⟩ := insertRow_table_of_ok t values res h hok
    rw [htab]
    refine ⟨rfl, rfl, ?_⟩
    intro r hr
    rcases List.mem_append.1 hr with hr | hr
    · exact harity r hr
    · rw [List.mem_singleton.1 hr]
      exact hlen

/-- The data loop of `loadFromFile` offers the saved records to `insertRow`
in order. -/
theorem loadRows_saved : ∀ (rows : List Row) (t1 : Table) (rest : List Str) (out : Str),
    (∀ r ∈ t1.rows, r.values.length = t1.columns.length) →
    (∀ r ∈ rows, r.storable) →
    (t1.columns ≠ [] ∨ ∀ r ∈ rows, r.values ≠ []) →
    ∃ t2 out1,
      loadRows t1 (rows.map (fun r => joinSp r.values) ++ "END".toList :: rest) out
        = some ⟨t2, rest, out1⟩ ∧ keepValid t1 rows = some t2
  | [], t1, rest, out, _, _, _ => by
    refine ⟨t1, out, ?_, rfl⟩
    simp [loadRows]
  | r :: rs, t1, rest, out, harity, hst, hne => by
    have hr := hst r (List.mem_cons_self _ _)
    have htok : wsTokens (joinSp r.values) = r.values := wsTokens_joinSp r.values hr.1
    have hend : joinSp r.values ≠ "END".toList := by
      intro heq
      rw [heq] at htok
      have h1 : wsTokens "END".toList = ["END".toList] := by decide
      rw [h1] at htok
      exact hr.2 htok.symm
    have hst1 : ∀ x ∈ rs, x.storable := fun x hx => hst x (List.mem_cons_of_mem _ hx)
    by_cases hv : r.values = []
    · have hcols : t1.columns ≠ [] := by
        rcases hne with h | h
        · exact h
        · exact absurd hv (h r (List.mem_cons_self _ _))
      have hlen : ¬ ([] : List Str).length = t1.columns.length := by
        intro heq
        exact hcols (List.length_eq_zero.1 heq.symm)
      obtain ⟨t2, out1, h1, h2⟩ := loadRows_saved rs t1 rest out harity hst1 (Or.inl hcols)
      refine ⟨t2, out1, ?_, ?_⟩
      · simp only [List.map_cons, List.cons_append, hv, joinSp, loadRows, if_true, List.append_eq]
        rw [if_neg (by decide)]
        exact h1
      · simp only [keepValid, hv, insertRow_of_length_ne t1 [] hlen]
        exact h2
    · have hnil : joinSp r.values ≠ [] := by
        intro heq
        rw [heq] at htok
        exact hv htok.symm
      obtain ⟨res, hres⟩ := insertRow_total t1 r.values harity
      obtain ⟨_, hc, ha⟩ := insertRow_keeps t1 r.values res hres harity
      obtain ⟨t2, out1, h1, h2⟩ := loadRows_saved rs res.table rest (out ++ res.out) ha hst1
        (by
          rcases hne with h | h
          · exact Or.inl (by rw [hc]; exact h)
          · exact Or.inr (fun x hx => h x (List.mem_cons_of_mem _ hx)))
      refine ⟨t2, out1, ?_, ?_⟩
      · simp only [List.map_cons, List.cons_append, loadRows, hend, hnil, if_false, htok, hv,
          hres, List.append_eq]
        exact h1
      · simp only [keepValid, hres]
        exact h2

/-- The table `keepValid` returns has the same name and columns, and its
records are the old ones followed by some of the offered ones, in order. -/
theorem keepValid_spec : ∀ (rows : List Row) (t t2 : Table), keepValid t rows = some t2 →
    t2.tableName = t.tableName ∧ t2.columns = t.columns ∧
    ∃ l : List Row, l.Sublist rows ∧ t2.rows = t.rows ++ l
  | [], t, t2, h => by
    simp only [keepValid, Option.some.injEq] at h
    subst h
    exact ⟨rfl, rfl, [], List.Sublist.refl _, by simp⟩
  | r :: rs, t, t2, h => by
    simp only [keepValid] at h
    cases hres : t.insertRow r.values with
    | none => rw [hres] at h; cases h
    | some res =>
      rw [hres] at h
      obtain ⟨hn, hc, l, hl, hrows⟩ := keepValid_spec rs res.table t2 h
      cases hok : res.ok with
      | false =>
        have htab := insertRow_table_of_not_ok t r.values res hres hok
        rw [htab] at hn hc hrows
        exact ⟨hn, hc, l, List.Sublist.cons r hl, hrows⟩
      | true =>
        have htab := (insertRow_table_of_ok t r.values res hres hok).1
        rw [htab] at hn hc hrows
        refine ⟨hn, hc, r :: l, List.Sublist.cons₂ r hl, ?_⟩
        rw [hrows]
        simp

/-- Counterexample to C5: the table that `INSERT INTO t VALUES (x, y)` leaves,
with the record `x`, ` y`, comes back from save and load with the record `x`,
`y`, which it never held (also through `SAVE TO FILE` and `LOAD FROM FILE`);
and a table whose first record is the single value `END` comes back
without any record, although `insertRow` accepts both of its records on
reload, the rest of its block being left unread. -/
theorem reload_differs :
    ((Table.new spacedTable.tableName).loadFromFile (splitLines spacedTable.saveBody)
        = some ⟨{ spacedTable with rows := [⟨["x".toList, "y".toList]⟩] }, [],
            "Column a added successfully.".toList ++ endl
              ++ "Column b added successfully.".toList ++ endl⟩ ∧
      ¬ ([⟨["x".toList, "y".toList]⟩] : List Row).Sublist spacedTable.rows ∧
      (runLines (DatabaseEngine.new ⟨none, true⟩)
          ["CREATE TABLE t".toList, "ADD COLUMN a text".toList, "ADD COLUMN b text".toList,
            "INSERT INTO t VALUES (x, y)".toList] []).map (fun r => r.engine.tables)
        = some [spacedTable] ∧
      (runLines (DatabaseEngine.new ⟨none, true⟩)
          ["CREATE TABLE t".toList, "ADD COLUMN a text".toList, "ADD COLUMN b text".toList,
            "INSERT INTO t VALUES (x, y)".toList, "SAVE TO FILE".toList,
            "LOAD FROM FILE".toList] []).map (fun r => r.engine.tables)
        = some [{ spacedTable with rows := [⟨["x".toList, "y".toList]⟩] }]) ∧
    ((Table.new endTable.tableName).loadFromFile (splitLines endTable.saveBody)
        = some ⟨{ endTable with rows := [] }, ["a".toList, "END".toList],
            "Column a added successfully.".toList ++ endl⟩ ∧
      keepValid { endTable with rows := [] } endTable.rows = some endTable) := by
  refine ⟨⟨by decide, by decide, by decide, by decide⟩, by decide, by decide⟩

/-- C5 (amended): for every table whose column names and types are non-empty
and free of whitespace, whose stored values are all non-empty and free of
whitespace, which has no one-value record equal to `END`, and which has at
least one column or no record without values, `saveToFile` writes the `TABLE`
line followed by a block that `loadFromFile` reads, up to and including its
`END` line, into a fresh table of the same name with the same columns in the
same order and, as records, exactly the stored records that `insertRow`
accepts when they are offered again in order: the records rejected on reload
are omitted and the others keep their order. -/
theorem saveToFile_loadFromFile (t : Table) (tail : Str)
    (hcols : ∀ c ∈ t.columns, c.storable) (hrows : ∀ r ∈ t.rows, r.storable)
    (hne : t.columns ≠ [] ∨ ∀ r ∈ t.rows, r.values ≠ []) :
    t.saveToFile = "TABLE ".toList ++ t.tableName ++ endl ++ t.saveBody ∧
    ∃ t2 out,
      (Table.new t.tableName).loadFromFile (splitLines (t.saveBody ++ tail))
        = some ⟨t2, splitLines tail, out⟩ ∧
      t2.tableName = t.tableName ∧ t2.columns = t.columns ∧ t2.rows.Sublist t.rows ∧
      keepValid ⟨t.tableName, t.columns, []⟩ t.rows = some t2 := by
  refine ⟨rfl, ?_⟩
  obtain ⟨out0, h0⟩ := loadColumns_saved t.columns (Table.new t.tableName)
    (t.rows.map (fun r => joinSp r.values) ++ "END".toList :: splitLines tail) [] hcols
  have ht1 : ({ Table.new t.tableName with columns := (Table.new t.tableName).columns ++ t.columns }
      : Table) = ⟨t.tableName, t.columns, []⟩ := by
    simp [Table.new]
  rw [ht1] at h0
  obtain ⟨t2, out, h1, h2⟩ := loadRows_saved t.rows ⟨t.tableName, t.columns, []⟩
    (splitLines tail) out0 (fun r hr => by cases hr) hrows hne
  obtain ⟨hn, hc, l, hl, hr⟩ := keepValid_spec t.rows _ t2 h2
  refine ⟨t2, out, ?_, hn, hc, ?_, h2⟩
  · rw [splitLines_saveBody t tail hcols hrows]
    simp only [Table.loadFromFile, h0, h1]
  · rw [hr]
    simpa using hl

/-- Witness of C5: `idTableOne` saved and loaded comes back unchanged. -/
theorem saveToFile_loadFromFile_witness :
    (∀ c ∈ idTableOne.columns, c.storable) ∧ (∀ r ∈ idTableOne.rows, r.storable) ∧
    idTableOne.columns ≠ [] ∧
    idTableOne.saveBody = "id int 1\nDATA\n1\nEND\n".toList ∧
    keepValid ⟨idTableOne.tableName, idTableOne.columns, []⟩ idTableOne.rows = some idTableOne ∧
    ∃ t2 out,
      (Table.new idTableOne.tableName).loadFromFile (splitLines (idTableOne.saveBody ++ []))
        = some ⟨t2, splitLines [], out⟩ ∧
      t2.tableName = idTableOne.tableName ∧ t2.columns = idTableOne.columns ∧
      t2.rows.Sublist idTableOne.rows ∧
      keepValid ⟨idTableOne.tableName, idTableOne.columns, []⟩ idTableOne.rows = some t2 :=
  ⟨by decide, by decide, by decide, by decide, by decide,
    (saveToFile_loadFromFile idTableOne [] (by decide) (by decide) (Or.inl (by decide))).2⟩

/-! ## Which column stops each validation loop -/

/-- The type loop stops at the first `int` column whose value has a character
other than a digit or `-`. -/
theorem typePass_first (values : List Str) :
    ∀ (cols : List Column) (i k : Nat) (c : Column) (v : Str), cols[k]? = some c →
      c.type = "int".toList → values[i + k]? = some v → v.any badIntChar = true →
      (∀ j d w, j < k → cols[j]? = some d → d.type = "int".toList →
        values[i + j]? = some w → w.any badIntChar = false) →
      typePass values cols i
        = some (some ("Error: Invalid integer value for column ".toList ++ c.name ++ endl))
  | [], _, k, _, _, hc, _, _, _, _ => by simp at hc
  | d :: ds, i, 0, c, v, hc, hty, hv, hbad, _ => by
    simp only [List.getElem?_cons_zero, Option.some.injEq] at hc
    subst hc
    simp only [Nat.add_zero] at hv
    simp only [typePass, hty, hv, if_true, hbad]
  | d :: ds, i, k + 1, c, v, hc, hty, hv, hbad, hfirst => by
    simp only [List.getElem?_cons_succ] at hc
    have ih := typePass_first values ds (i + 1) k c v hc hty
      (by rw [show i + 1 + k = i + (k + 1) by omega]; exact hv) hbad
      (fun j e w hj he hf hw =>
        hfirst (j + 1) e w (by omega) (by simpa using he) hf
          (by rw [show i + (j + 1) = i + 1 + j by omega]; exact hw))
    have hi : i < values.length := by
      have := (List.getElem?_eq_some.1 hv).1
      omega
    have h0 := hfirst 0 d values[i] (by omega) List.getElem?_cons_zero
    simp only [typePass, List.getElem?_eq_getElem hi]
    split_ifs with h1 h2
    · have := h0 h1 (by rw [Nat.add_zero]; exact List.getElem?_eq_getElem hi)
      rw [this] at h2
      cases h2
    · exact ih
    · exact ih

/-- The type loop runs to its end when every `int` column has a well-formed value. -/
theorem typePass_clean (values : List Str) :
    ∀ (cols : List Column) (i : Nat), i + cols.length ≤ values.length →
      (∀ j d w, cols[j]? = some d → d.type = "int".toList →
        values[i + j]? = some w → w.any badIntChar = false) →
      typePass values cols i = some none
  | [], _, _, _ => rfl
  | d :: ds, i, h, hall => by
    have hi : i < values.length := by simp only [List.length_cons] at h; omega
    have ih := typePass_clean values ds (i + 1) (by simp only [List.length_cons] at h; omega)
      (fun j e w he hf hw =>
        hall (j + 1) e w (by simpa using he) hf
          (by rw [show i + (j + 1) = i + 1 + j by omega]; exact hw))
    have h0 := hall 0 d values[i] List.getElem?_cons_zero
    simp only [typePass, List.getElem?_eq_getElem hi]
    split_ifs with h1 h2
    · have := h0 h1 (by rw [Nat.add_zero]; exact List.getElem?_eq_getElem hi)
      rw [this] at h2
      cases h2
    · exact ih
    · exact ih

/-- The NOT NULL loop reports the first NOT NULL column with an empty value. -/
theorem notNullPass_first (values : List Str) :
    ∀ (cols : List Column) (i k : Nat) (c : Column), cols[k]? = some c →
      c.hasConstraint NOT_NULL = true → values[i + k]? = some [] →
      (∀ j d, j < k → cols[j]? = some d → d.hasConstraint NOT_NULL = true →
        values[i + j]? ≠ some []) →
      notNullPass values cols i
        = some (some ("Error: Column ".toList ++ c.name ++ " cannot be NULL".toList ++ endl))
  | [], _, k, _, hc, _, _, _ => by simp at hc
  | d :: ds, i, 0, c, hc, hflag, hv, _ => by
    simp only [List.getElem?_cons_zero, Option.some.injEq] at hc
    subst hc
    simp only [Nat.add_zero] at hv
    simp only [notNullPass, hflag, hv, if_true, List.isEmpty_nil]
  | d :: ds, i, k + 1, c, hc, hflag, hv, hfirst => by
    simp only [List.getElem?_cons_succ] at hc
    have ih := notNullPass_first values ds (i + 1) k c hc hflag
      (by rw [show i + 1 + k = i + (k + 1) by omega]; exact hv)
      (fun j e hj he hf => by
        have := hfirst (j + 1) e (by omega) (by simpa using he) hf
        rwa [show i + (j + 1) = i + 1 + j by omega] at this)
    have hi : i < values.length := by
      have := (List.getElem?_eq_some.1 hv).1
      omega
    have h0 := hfirst 0 d (by omega) List.getElem?_cons_zero
    simp only [notNullPass, List.getElem?_eq_getElem hi]
    split_ifs with h1 h2
    · exfalso
      apply h0 h1
      rw [Nat.add_zero, List.getElem?_eq_getElem hi, List.isEmpty_iff.1 h2]
    · exact ih
    · exact ih

/-- The NOT NULL loop runs to its end when no NOT NULL column has an empty value. -/
theorem notNullPass_clean (values : List Str) :
    ∀ (cols : List Column) (i : Nat), i + cols.length ≤ values.length →
      (∀ j d, cols[j]? = some d → d.hasConstraint NOT_NULL = true →
        values[i + j]? ≠ some []) →
      notNullPass values cols i = some none
  | [], _, _, _ => rfl
  | d :: ds, i, h, hall => by
    have hi : i < values.length := by simp only [List.length_cons] at h; omega
    have ih := notNullPass_clean values ds (i + 1)
      (by simp only [List.length_cons] at h; omega)
      (fun j e he hf => by
        have := hall (j + 1) e (by simpa using he) hf
        rwa [show i + (j + 1) = i + 1 + j by omega] at this)
    have h0 := hall 0 d List.getElem?_cons_zero
    simp only [notNullPass, List.getElem?_eq_getElem hi]
    split_ifs with h1 h2
    · exfalso
      apply h0 h1
      rw [Nat.add_zero, List.getElem?_eq_getElem hi, List.isEmpty_iff.1 h2]
    · exact ih
    · exact ih

/-- The UNIQUE loop reports the first UNIQUE column whose value is stored. -/
theorem uniquePass_first (rows : List Row) (values : List Str) :
    ∀ (cols : List Column) (i k : Nat) (c : Column), cols[k]? = some c →
      c.hasConstraint UNIQUE = true → scanRows values (i + k) rows = some true →
      (∀ j d, j < k → cols[j]? = some d → d.hasConstraint UNIQUE = true →
        scanRows values (i + j) rows = some false) →
      uniquePass rows values cols i
        = some (some ("Error: Duplicate value in UNIQUE column ".toList ++ c.name ++ endl))
  | [], _, k, _, hc, _, _, _ => by simp at hc
  | d :: ds, i, 0, c, hc, hflag, hs, _ => by
    simp only [List.getElem?_cons_zero, Option.some.injEq] at hc
    subst hc
    simp only [Nat.add_zero] at hs
    simp only [uniquePass, hflag, hs, if_true]
  | d :: ds, i, k + 1, c, hc, hflag, hs, hfirst => by
    simp only [List.getElem?_cons_succ] at hc
    have ih := uniquePass_first rows values ds (i + 1) k c hc hflag
      (by rw [show i + 1 + k = i + (k + 1) by omega]; exact hs)
      (fun j e hj he hf => by
        have := hfirst (j + 1) e (by omega) (by simpa using he) hf
        rwa [show i + (j + 1) = i + 1 + j by omega] at this)
    have h0 := hfirst 0 d (by omega) List.getElem?_cons_zero
    simp only [uniquePass]
    split_ifs with h1
    · have := h0 h1
      rw [Nat.add_zero] at this
      simp only [this]
      exact ih
    · exact ih

/-- The UNIQUE loop runs to its end when no UNIQUE column has a stored value. -/
theorem uniquePass_clean (rows : List Row) (values : List Str) :
    ∀ (cols : List Column) (i : Nat),
      (∀ j d, cols[j]? = some d → d.hasConstraint UNIQUE = true →
        scanRows values (i + j) rows = some false) →
      uniquePass rows values cols i = some none
  | [], _, _ => rfl
  | d :: ds, i, hall => by
    have ih := uniquePass_clean rows values ds (i + 1)
      (fun j e he hf => by
        have := hall (j + 1) e (by simpa using he) hf
        rwa [show i + (j + 1) = i + 1 + j by omega] at this)
    have h0 := hall 0 d List.getElem?_cons_zero
    simp only [uniquePass]
    split_ifs with h1
    · have := h0 h1
      rw [Nat.add_zero] at this
      simp only [this]
      exact ih
    · exact ih

/-- The PRIMARY KEY loop reports the first PRIMARY KEY column whose value is
empty or stored: the null message when it is empty, else the duplicate message. -/
theorem primaryKeyPass_first (rows : List Row) (values : List Str) :
    ∀ (cols : List Column) (i k : Nat) (c : Column) (v : Str), cols[k]? = some c →
      c.hasConstraint PRIMARY_KEY = true → values[i + k]? = some v →
      (v = [] ∨ scanRows values (i + k) rows = some true) →
      (∀ j d, j < k → cols[j]? = some d → d.hasConstraint PRIMARY_KEY = true →
        values[i + j]? ≠ some [] ∧ scanRows values (i + j) rows = some false) →
      primaryKeyPass rows values cols i
        = some (some (if v = [] then
            "Error: Primary key column ".toList ++ c.name ++ " cannot be NULL".toList ++ endl
          else "Error: Duplicate primary key value in column ".toList ++ c.name ++ endl))
  | [], _, k, _, _, hc, _, _, _, _ => by simp at hc
  | d :: ds, i, 0, c, v, hc, hflag, hv, hviol, _ => by
    simp only [List.getElem?_cons_zero, Option.some.injEq] at hc
    subst hc
    simp only [Nat.add_zero] at hv hviol
    by_cases hnil : v = []
    · subst hnil
      simp only [primaryKeyPass, hflag, hv, if_true, List.isEmpty_nil]
    · have hs : scanRows values i rows = some true := hviol.resolve_left hnil
      have he : v.isEmpty = false := by
        cases v with
        | nil => exact absurd rfl hnil
        | cons _ _ => rfl
      simp only [primaryKeyPass, hflag, hv, if_true, he, Bool.false_eq_true, if_false, hs, hnil]
  | d :: ds, i, k + 1, c, v, hc, hflag, hv, hviol, hfirst => by
    simp only [List.getElem?_cons_succ] at hc
    have ih := primaryKeyPass_first rows values ds (i + 1) k c v hc hflag
      (by rw [show i + 1 + k = i + (k + 1) by omega]; exact hv)
      (by rw [show i + 1 + k = i + (k + 1) by omega]; exact hviol)
      (fun j e hj he hf => by
        have := hfirst (j + 1) e (by omega) (by simpa using he) hf
        rwa [show i + (j + 1) = i + 1 + j by omega] at this)
    have hi : i < values.length := by
      have := (List.getElem?_eq_some.1 hv).1
      omega
    have h0 := hfirst 0 d (by omega) List.getElem?_cons_zero
    simp only [primaryKeyPass, List.getElem?_eq_getElem hi]
    by_cases h1 : d.hasConstraint PRIMARY_KEY = true
    · have hne : values[i].isEmpty = false := by
        cases hemp : values[i].isEmpty with
        | false => rfl
        | true =>
          exfalso
          apply (h0 h1).1
          rw [Nat.add_zero, List.getElem?_eq_getElem hi, List.isEmpty_iff.1 hemp]
      have hs := (h0 h1).2
      rw [Nat.add_zero] at hs
      simp only [h1, if_true, hne, Bool.false_eq_true, if_false, hs]
      exact ih
    · simp only [h1, if_false]
      exact ih

/-- The PRIMARY KEY loop runs to its end when no PRIMARY KEY column has an
empty or stored value. -/
theorem primaryKeyPass_clean (rows : List Row) (values : List Str) :
    ∀ (cols : List Column) (i : Nat), i + cols.length ≤ values.length →
      (∀ j d, cols[j]? = some d → d.hasConstraint PRIMARY_KEY = true →
        values[i + j]? ≠ some [] ∧ scanRows values (i + j) rows = some false) →
      primaryKeyPass rows values cols i = some none
  | [], _, _, _ => rfl
  | d :: ds, i, h, hall => by
    have hi : i < values.length := by simp only [List.length_cons] at h; omega
    have ih := primaryKeyPass_clean rows values ds (i + 1)
      (by simp only [List.length_cons] at h; omega)
      (fun j e he hf => by
        have := hall (j + 1) e (by simpa using he) hf
        rwa [show i + (j + 1) = i + 1 + j by omega] at this)
    have h0 := hall 0 d List.getElem?_cons_zero
    simp only [primaryKeyPass, List.getElem?_eq_getElem hi]
    split_ifs with h1 h2
    · exfalso
      apply (h0 h1).1
      rw [Nat.add_zero, List.getElem?_eq_getElem hi, List.isEmpty_iff.1 h2]
    · have := (h0 h1).2
      rw [Nat.add_zero] at this
      simp only [this]
      exact ih
    · exact ih

/-! ## When `insertRow` succeeds -/

theorem any_badIntChar_iff (v : Str) :
    v.any badIntChar = false ↔ ∀ ch ∈ v, ch.isDigit = true ∨ ch = '-' := by
  constructor
  · intro h ch hch
    have := List.any_eq_false.1 h ch hch
    cases hd : ch.isDigit with
    | true => exact Or.inl rfl
    | false =>
      right
      by_contra hne
      apply this
      simp [badIntChar, hd, hne]
  · exact any_badIntChar_eq_false v

/-- An `int` column with an ill-formed value stops the type loop. -/
theorem typePass_hit (values : List Str) :
    ∀ (cols : List Column) (i k : Nat) (c : Column) (v : Str), cols[k]? = some c →
      c.type = "int".toList → values[i + k]? = some v → v.any badIntChar = true →
      ∃ msg, typePass values cols i = some (some msg)
  | [], _, k, _, _, hc, _, _, _ => by simp at hc
  | d :: ds, i, 0, c, v, hc, hty, hv, hbad => by
    simp only [List.getElem?_cons_zero, Option.some.injEq] at hc
    subst hc
    simp only [Nat.add_zero] at hv
    simp only [typePass, hty, hv, if_true, hbad]
    exact ⟨_, rfl⟩
  | d :: ds, i, k + 1, c, v, hc, hty, hv, hbad => by
    simp only [List.getElem?_cons_succ] at hc
    have ih := typePass_hit values ds (i + 1) k c v hc hty
      (by rw [show i + 1 + k = i + (k + 1) by omega]; exact hv) hbad
    have hi : i < values.length := by
      have := (List.getElem?_eq_some.1 hv).1
      omega
    simp only [typePass, List.getElem?_eq_getElem hi]
    split_ifs
    · exact ⟨_, rfl⟩
    · exact ih
    · exact ih

/-- A PRIMARY KEY column with an empty value stops the third loop. -/
theorem primaryKeyPass_hit_empty (rows : List Row) (values : List Str) :
    ∀ (cols : List Column) (i k : Nat) (c : Column), i + cols.length ≤ values.length →
      (∀ r ∈ rows, i + cols.length ≤ r.values.length) →
      cols[k]? = some c → c.hasConstraint PRIMARY_KEY = true → values[i + k]? = some [] →
      ∃ msg, primaryKeyPass rows values cols i = some (some msg)
  | [], _, k, _, _, _, hc, _, _ => by simp at hc
  | d :: ds, i, 0, c, _, _, hc, hflag, hv => by
    simp only [List.getElem?_cons_zero, Option.some.injEq] at hc
    subst hc
    simp only [Nat.add_zero] at hv
    simp only [primaryKeyPass, hflag, hv, if_true, List.isEmpty_nil]
    exact ⟨_, rfl⟩
  | d :: ds, i, k + 1, c, h, hrows, hc, hflag, hv => by
    simp only [List.getElem?_cons_succ] at hc
    have hi : i < values.length := by simp only [List.length_cons] at h; omega
    have ih := primaryKeyPass_hit_empty rows values ds (i + 1) k c
      (by simp only [List.length_cons] at h; omega)
      (fun r hr => by have := hrows r hr; simp only [List.length_cons] at this; omega)
      hc hflag (by rw [show i + 1 + k = i + (k + 1) by omega]; exact hv)
    obtain ⟨b, hb⟩ := scanRows_total values i hi rows
      (fun r hr => by have := hrows r hr; simp only [List.length_cons] at this; omega)
    simp only [primaryKeyPass, hb, List.getElem?_eq_getElem hi]
    split_ifs
    · exact ⟨_, rfl⟩
    · cases b
      · exact ih
      · exact ⟨_, rfl⟩
    · exact ih

/-- The row scan in terms of `storedAt`. -/
theorem scanRows_of_storedAt (rows : List Row) (values : List Str) (i : Nat)
    (hrows : ∀ r ∈ rows, i < r.values.length) (h : storedAt rows values i) :
    scanRows values i rows = some true := by
  obtain ⟨v, hv, hdup⟩ := h
  exact scanRows_eq_true values i v hv rows hrows hdup

theorem scanRows_of_not_storedAt (rows : List Row) (values : List Str) (i : Nat)
    (hi : i < values.length) (hrows : ∀ r ∈ rows, i < r.values.length)
    (h : ¬ storedAt rows values i) : scanRows values i rows = some false := by
  apply scanRows_eq_false values i values[i] (List.getElem?_eq_getElem hi) rows hrows
  intro r hr heq
  exact h ⟨values[i], List.getElem?_eq_getElem hi, r, hr, heq⟩

/-- What a successful `insertRow` tells about the four loops. -/
theorem insertRow_ok_passes (t : Table) (values : List Str) (r : TableResult)
    (h : t.insertRow values = some r) (hok : r.ok = true) :
    values.length = t.columns.length ∧ typePass values t.columns 0 = some none ∧
    notNullPass values t.columns 0 = some none ∧
    uniquePass t.rows values t.columns 0 = some none ∧
    primaryKeyPass t.rows values t.columns 0 = some none := by
  unfold Table.insertRow at h
  split_ifs at h with hlen
  · cases h; cases hok
  · split at h
    · cases h
    · cases h; cases hok
    · rename_i htp
      split at h
      · cases h
      · cases h; cases hok
      · rename_i msg hval
        refine ⟨not_not.1 hlen, htp, ?_⟩
        unfold Table.validateConstraints at hval
        split at hval
        · cases hval
        · cases hval
        · rename_i h1
          split at hval
          · cases hval
          · cases hval
          · rename_i h2
            split at hval
            · cases hval
            · cases hval
            · rename_i h3
              exact ⟨h1, h2, h3⟩

/-- The four loops all run to their end exactly when `insertRow` succeeds. -/
theorem insertRow_of_passes (t : Table) (values : List Str)
    (hlen : values.length = t.columns.length)
    (h0 : typePass values t.columns 0 = some none)
    (h1 : notNullPass values t.columns 0 = some none)
    (h2 : uniquePass t.rows values t.columns 0 = some none)
    (h3 : primaryKeyPass t.rows values t.columns 0 = some none) :
    t.insertRow values = some ⟨true, { t with rows := t.rows ++ [⟨values⟩] }, []⟩ := by
  simp only [Table.insertRow, hlen, ne_eq, not_true_eq_false, if_false, h0,
    Table.validateConstraints, h1, h2, h3]

/-- On a table whose records have schema arity, `insertRow` returns, and it
returns `true` exactly for the value lists the table admits. -/
theorem insertRow_ok_iff (t : Table) (values : List Str)
    (harity : ∀ r ∈ t.rows, r.values.length = t.columns.length) :
    ∃ r, t.insertRow values = some r ∧ (r.ok = true ↔ t.admits values) := by
  by_cases hadm : t.admits values
  · obtain ⟨hlen, hall⟩ := hadm
    have hrows : ∀ j, j < t.columns.length → ∀ r ∈ t.rows, j < r.values.length :=
      fun j hj r hr => by rw [harity r hr]; exact hj
    have hcol : ∀ (j : Nat) (d : Column), t.columns[j]? = some d → j < values.length :=
      fun j d hd => by rw [hlen]; exact (List.getElem?_eq_some.1 hd).1
    refine ⟨_, insertRow_of_passes t values hlen ?_ ?_ ?_ ?_, ?_⟩
    · apply typePass_clean values t.columns 0 (by omega)
      intro j d w hd hty hw
      rw [Nat.zero_add] at hw
      exact (any_badIntChar_iff w).2 ((hall j d w hd hw).1 hty)
    · apply notNullPass_clean values t.columns 0 (by omega)
      intro j d hd hf hw
      rw [Nat.zero_add] at hw
      exact (hall j d [] hd hw).2.1 (Or.inl hf) rfl
    · apply uniquePass_clean
      intro j d hd hf
      rw [Nat.zero_add]
      have hj := hcol j d hd
      apply scanRows_of_not_storedAt t.rows values j hj
        (hrows j (List.getElem?_eq_some.1 hd).1)
      rintro ⟨v, hv, r, hr, hrv⟩
      exact (hall j d v hd hv).2.2 (Or.inl hf) r hr hrv
    · apply primaryKeyPass_clean t.rows values t.columns 0 (by omega)
      intro j d hd hf
      rw [Nat.zero_add]
      have hj := hcol j d hd
      refine ⟨fun hw => (hall j d [] hd hw).2.1 (Or.inr hf) rfl, ?_⟩
      apply scanRows_of_not_storedAt t.rows values j hj
        (hrows j (List.getElem?_eq_some.1 hd).1)
      rintro ⟨v, hv, r, hr, hrv⟩
      exact (hall j d v hd hv).2.2 (Or.inr hf) r hr hrv
    · exact ⟨fun _ => ⟨hlen, hall⟩, fun _ => rfl⟩
  · obtain ⟨r, hr⟩ := insertRow_total t values harity
    refine ⟨r, hr, ⟨fun hok => ?_, fun h => absurd h hadm⟩⟩
    obtain ⟨hlen, h0, h1, h2, h3⟩ := insertRow_ok_passes t values r hr hok
    have hrows : ∀ r ∈ t.rows, 0 + t.columns.length ≤ r.values.length :=
      fun r hr => by rw [harity r hr]; omega
    refine ⟨hlen, fun i c v hc hv => ⟨?_, ?_, ?_⟩⟩
    · intro hty
      apply (any_badIntChar_iff v).1
      cases hb : v.any badIntChar with
      | false => rfl
      | true =>
        obtain ⟨m, hm⟩ := typePass_hit values t.columns 0 i c v hc hty
          (by rw [Nat.zero_add]; exact hv) hb
        rw [hm] at h0
        cases h0
    · rintro (hf | hf) hnil
      · subst hnil
        obtain ⟨m, hm⟩ := notNullPass_hit values t.columns 0 i c hc hf
          (by rw [Nat.zero_add]; exact hv)
        rw [hm] at h1
        cases h1
      · subst hnil
        obtain ⟨m, hm⟩ := primaryKeyPass_hit_empty t.rows values t.columns 0 i c (by omega)
          hrows hc hf (by rw [Nat.zero_add]; exact hv)
        rw [hm] at h3
        cases h3
    · rintro (hf | hf) row hrow hdup
      · have hs : scanRows values (0 + i) t.rows = some true := by
          rw [Nat.zero_add]
          exact scanRows_eq_true values i v hv t.rows
            (fun r hr => by rw [harity r hr]; exact (List.getElem?_eq_some.1 hc).1)
            ⟨row, hrow, hdup⟩
        obtain ⟨m, hm⟩ := uniquePass_hit t.rows values t.columns 0 i c (by omega) hrows hc hf hs
        rw [hm] at h2
        cases h2
      · have hs : scanRows values (0 + i) t.rows = some true := by
          rw [Nat.zero_add]
          exact scanRows_eq_true values i v hv t.rows
            (fun r hr => by rw [harity r hr]; exact (List.getElem?_eq_some.1 hc).1)
            ⟨row, hrow, hdup⟩
        obtain ⟨m, hm⟩ :=
          primaryKeyPass_hit t.rows values t.columns 0 i c (by omega) hrows hc hf hs
        rw [hm] at h3
        cases h3

/-- C14: on a table whose records all have schema arity, `insertRow` returns
for every value list, and it succeeds if and only if the table admits the
list: (1) the length is the column count, (2) every value of an `int` column
is made of digits and `-` only, (3) no NOT_NULL or PRIMARY_KEY column has the
empty string, (4) no UNIQUE or PRIMARY_KEY column has a value that a stored
record has in that column; on success the records are the old ones followed
by the value list and the columns are unchanged, on failure the table is
unchanged. -/
theorem insertRow_succeeds_iff (t : Table) (values : List Str)
    (harity : ∀ r ∈ t.rows, r.values.length = t.columns.length) :
    ∃ r, t.insertRow values = some r ∧ (r.ok = true ↔ t.admits values) ∧
      (r.ok = true → r.table.rows = t.rows ++ [⟨values⟩] ∧ r.table.columns = t.columns) ∧
      (r.ok = false → r.table = t) := by
  obtain ⟨r, hr, hiff⟩ := insertRow_ok_iff t values harity
  refine ⟨r, hr, hiff, fun hok => ?_, fun hok => insertRow_table_of_not_ok t values r hr hok⟩
  rw [(insertRow_table_of_ok t values r hr hok).1]
  exact ⟨rfl, rfl⟩

/-- Witness of C14: `uniqueIntTable` accepts the ill-formed integers `--1` and
the empty string, and refuses `1x`. -/
theorem insertRow_succeeds_iff_witness :
    (∀ r ∈ uniqueIntTable.rows, r.values.length = uniqueIntTable.columns.length) ∧
    uniqueIntTable.insertRow ["--1".toList]
      = some ⟨true, { uniqueIntTable with rows := [⟨["--1".toList]⟩] }, []⟩ ∧
    uniqueIntTable.insertRow [[]]
      = some ⟨true, { uniqueIntTable with rows := [⟨[[]]⟩] }, []⟩ ∧
    uniqueIntTable.insertRow ["1x".toList]
      = some ⟨false, uniqueIntTable, "Error: Invalid integer value for column n".toList ++ endl⟩ ∧
    ∃ r, uniqueIntTable.insertRow ["--1".toList] = some r ∧
      (r.ok = true ↔ uniqueIntTable.admits ["--1".toList]) ∧
      (r.ok = true → r.table.rows = uniqueIntTable.rows ++ [⟨["--1".toList]⟩] ∧
        r.table.columns = uniqueIntTable.columns) ∧
      (r.ok = false → r.table = uniqueIntTable) :=
  ⟨by decide, rfl, rfl, rfl, insertRow_succeeds_iff uniqueIntTable ["--1".toList] (by decide)⟩

/-! ## The order of the reported violations -/

/-- C15: for a table whose records have schema arity and a value list of schema
arity, `validateConstraints` reports, in this order: the lowest-indexed NOT_NULL
column with an empty value (a null violation naming it), whatever the UNIQUE
and PRIMARY_KEY columns hold; failing that, the lowest-indexed UNIQUE column
whose value is stored (a unique violation naming it); failing that, the
lowest-indexed PRIMARY_KEY column whose value is empty (null violation) or
stored (unique violation); and it answers `true` without printing when there
is none. -/
theorem validateConstraints_order (t : Table) (values : List Str)
    (harity : ∀ r ∈ t.rows, r.values.length = t.columns.length)
    (hlen : values.length = t.columns.length) :
    (∀ (i : Nat) (c : Column), t.columns[i]? = some c → c.hasConstraint NOT_NULL = true →
      emptyAt values i →
      (∀ (j : Nat) (d : Column), j < i → t.columns[j]? = some d →
        d.hasConstraint NOT_NULL = true → ¬ emptyAt values j) →
      t.validateConstraints values
        = some (false, "Error: Column ".toList ++ c.name ++ " cannot be NULL".toList ++ endl)) ∧
    ((∀ (j : Nat) (d : Column), t.columns[j]? = some d →
        d.hasConstraint NOT_NULL = true → ¬ emptyAt values j) →
      (∀ (i : Nat) (c : Column), t.columns[i]? = some c → c.hasConstraint UNIQUE = true →
        storedAt t.rows values i →
        (∀ (j : Nat) (d : Column), j < i → t.columns[j]? = some d →
          d.hasConstraint UNIQUE = true → ¬ storedAt t.rows values j) →
        t.validateConstraints values
          = some (false, "Error: Duplicate value in UNIQUE column ".toList ++ c.name ++ endl)) ∧
      ((∀ (j : Nat) (d : Column), t.columns[j]? = some d →
          d.hasConstraint UNIQUE = true → ¬ storedAt t.rows values j) →
        (∀ (i : Nat) (c : Column), t.columns[i]? = some c →
          c.hasConstraint PRIMARY_KEY = true →
          (emptyAt values i ∨ storedAt t.rows values i) →
          (∀ (j : Nat) (d : Column), j < i → t.columns[j]? = some d →
            d.hasConstraint PRIMARY_KEY = true →
            ¬ emptyAt values j ∧ ¬ storedAt t.rows values j) →
          (emptyAt values i → t.validateConstraints values
            = some (false, "Error: Primary key column ".toList ++ c.name
                ++ " cannot be NULL".toList ++ endl)) ∧
          (¬ emptyAt values i → t.validateConstraints values
            = some (false, "Error: Duplicate primary key value in column ".toList
                ++ c.name ++ endl))) ∧
        ((∀ (j : Nat) (d : Column), t.columns[j]? = some d →
            d.hasConstraint PRIMARY_KEY = true →
            ¬ emptyAt values j ∧ ¬ storedAt t.rows values j) →
          t.validateConstraints values = some (true, [])))) := by
  have hcol : ∀ (j : Nat) (d : Column), t.columns[j]? = some d → j < values.length :=
    fun j d hd => by rw [hlen]; exact (List.getElem?_eq_some.1 hd).1
  have hrows : ∀ (j : Nat) (d : Column), t.columns[j]? = some d →
      ∀ r ∈ t.rows, j < r.values.length :=
    fun j d hd r hr => by rw [harity r hr]; exact (List.getElem?_eq_some.1 hd).1
  have hscanF : ∀ (j : Nat) (d : Column), t.columns[j]? = some d →
      ¬ storedAt t.rows values j → scanRows values (0 + j) t.rows = some false :=
    fun j d hd hn => by
      rw [Nat.zero_add]
      exact scanRows_of_not_storedAt t.rows values j (hcol j d hd) (hrows j d hd) hn
  have hscanT : ∀ (j : Nat) (d : Column), t.columns[j]? = some d →
      storedAt t.rows values j → scanRows values (0 + j) t.rows = some true :=
    fun j d hd hs => by
      rw [Nat.zero_add]
      exact scanRows_of_storedAt t.rows values j (hrows j d hd) hs
  have hempty : ∀ j : Nat, values[0 + j]? = some [] ↔ emptyAt values j :=
    fun j => by rw [Nat.zero_add]; exact Iff.rfl
  refine ⟨?_, fun hnn => ⟨?_, fun hun => ⟨?_, ?_⟩⟩⟩
  · intro i c hc hf he hprev
    have := notNullPass_first values t.columns 0 i c hc hf ((hempty i).2 he)
      (fun j d hj hd hfd h => hprev j d hj hd hfd ((hempty j).1 h))
    simp only [Table.validateConstraints, this]
  · intro i c hc hf hs hprev
    have h1 := notNullPass_clean values t.columns 0 (by omega)
      (fun j d hd hfd h => hnn j d hd hfd ((hempty j).1 h))
    have h2 := uniquePass_first t.rows values t.columns 0 i c hc hf (hscanT i c hc hs)
      (fun j d hj hd hfd => hscanF j d hd (hprev j d hj hd hfd))
    simp only [Table.validateConstraints, h1, h2]
  · intro i c hc hf hviol hprev
    have h1 := notNullPass_clean values t.columns 0 (by omega)
      (fun j d hd hfd h => hnn j d hd hfd ((hempty j).1 h))
    have h2 := uniquePass_clean t.rows values t.columns 0
      (fun j d hd hfd => hscanF j d hd (hun j d hd hfd))
    have hi : i < values.length := hcol i c hc
    have hv : values[0 + i]? = some values[i] := by
      rw [Nat.zero_add]
      exact List.getElem?_eq_getElem hi
    have hiff : emptyAt values i ↔ values[i] = [] := by
      unfold emptyAt
      rw [List.getElem?_eq_getElem hi]
      exact ⟨fun h => Option.some.inj h, fun h => by rw [h]⟩
    have h3 := primaryKeyPass_first t.rows values t.columns 0 i c values[i] hc hf hv
      (hviol.elim (fun he => Or.inl (hiff.1 he)) (fun hs => Or.inr (hscanT i c hc hs)))
      (fun j d hj hd hfd =>
        ⟨fun h => (hprev j d hj hd hfd).1 ((hempty j).1 h),
          hscanF j d hd (hprev j d hj hd hfd).2⟩)
    constructor
    · intro he
      simp only [Table.validateConstraints, h1, h2, h3, hiff.1 he, if_true]
    · intro he
      have hne : ¬ values[i] = [] := fun h => he (hiff.2 h)
      simp only [Table.validateConstraints, h1, h2, h3, hne, if_false]
  · intro hpk
    have h1 := notNullPass_clean values t.columns 0 (by omega)
      (fun j d hd hfd h => hnn j d hd hfd ((hempty j).1 h))
    have h2 := uniquePass_clean t.rows values t.columns 0
      (fun j d hd hfd => hscanF j d hd (hun j d hd hfd))
    have h3 := primaryKeyPass_clean t.rows values t.columns 0 (by omega)
      (fun j d hd hfd =>
        ⟨fun h => (hpk j d hd hfd).1 ((hempty j).1 h), hscanF j d hd (hpk j d hd hfd).2⟩)
    simp only [Table.validateConstraints, h1, h2, h3]

/-- Witness of C15: in `orderTable` the value list `(k, "")` repeats the stored
value of the UNIQUE first column and leaves the NOT_NULL second column empty;
the null violation of the second column is the one reported. -/
theorem validateConstraints_order_witness :
    (∀ r ∈ orderTable.rows, r.values.length = orderTable.columns.length) ∧
    ["k".toList, []].length = orderTable.columns.length ∧
    storedAt orderTable.rows ["k".toList, []] 0 ∧
    emptyAt ["k".toList, []] 1 ∧
    orderTable.validateConstraints ["k".toList, []]
      = some (false, "Error: Column n cannot be NULL".toList ++ endl) :=
  ⟨by decide, rfl, ⟨"k".toList, rfl, ⟨["k".toList, "x".toList]⟩, by decide, rfl⟩, rfl,
    (validateConstraints_order orderTable ["k".toList, []] (by decide) rfl).1 1
      ⟨"n".toList, "text".toList, NOT_NULL⟩ rfl (by decide) rfl
      (fun j d hj hd hf => by
        have hj0 : j = 0 := by omega
        subst hj0
        simp only [orderTable, List.getElem?_cons_zero, Option.some.injEq] at hd
        subst hd
        exact absurd hf (by decide))⟩

/-! ## Primary keys: three passes or one -/

/-- Columns that demand the same of a value: same type, and the same answers
to "NOT_NULL or PRIMARY_KEY" and to "UNIQUE or PRIMARY_KEY". -/
theorem admits_map (t : Table) (f : Column → Column) (values : List Str)
    (hf : ∀ c : Column, (f c).type = c.type ∧
      (((f c).hasConstraint NOT_NULL = true ∨ (f c).hasConstraint PRIMARY_KEY = true) ↔
        (c.hasConstraint NOT_NULL = true ∨ c.hasConstraint PRIMARY_KEY = true)) ∧
      (((f c).hasConstraint UNIQUE = true ∨ (f c).hasConstraint PRIMARY_KEY = true) ↔
        (c.hasConstraint UNIQUE = true ∨ c.hasConstraint PRIMARY_KEY = true))) :
    Table.admits { t with columns := t.columns.map f } values ↔ t.admits values := by
  unfold Table.admits
  simp only [List.length_map, List.getElem?_map]
  constructor
  · rintro ⟨hlen, h⟩
    refine ⟨hlen, fun i c v hc hv => ?_⟩
    have := h i (f c) v (by rw [hc]; rfl) hv
    obtain ⟨hty, hnn, hun⟩ := hf c
    exact ⟨fun h1 => this.1 (by rw [hty]; exact h1), fun h2 => this.2.1 (hnn.2 h2),
      fun h3 => this.2.2 (hun.2 h3)⟩
  · rintro ⟨hlen, h⟩
    refine ⟨hlen, fun i c' v hc hv => ?_⟩
    cases hci : t.columns[i]? with
    | none => rw [hci] at hc; cases hc
    | some c =>
      rw [hci] at hc
      simp only [Option.map_some', Option.some.injEq] at hc
      subst hc
      have := h i c v hci hv
      obtain ⟨hty, hnn, hun⟩ := hf c
      exact ⟨fun h1 => this.1 (by rw [← hty]; exact h1), fun h2 => this.2.1 (hnn.1 h2),
        fun h3 => this.2.2 (hun.1 h3)⟩

theorem withKeyBits_primaryKey (c : Column) :
    c.withKeyBits.hasConstraint PRIMARY_KEY = c.hasConstraint PRIMARY_KEY := by
  unfold Column.withKeyBits
  split_ifs with h
  · rw [h]
    simp only [Column.hasConstraint, PRIMARY_KEY, NOT_NULL, UNIQUE] at h ⊢
    rw [Nat.and_distrib_right, Nat.and_distrib_right]
    have h2 : (2 : Nat) &&& 1 = 0 := by decide
    have h4 : (4 : Nat) &&& 1 = 0 := by decide
    rw [h2, h4, Nat.or_zero, Nat.or_zero]
    exact h
  · rfl

theorem withoutKeyBits_primaryKey (c : Column) :
    c.withoutKeyBits.hasConstraint PRIMARY_KEY = c.hasConstraint PRIMARY_KEY := by
  unfold Column.withoutKeyBits
  split_ifs with h
  · simp only [Column.hasConstraint, PRIMARY_KEY]
    rw [Nat.and_assoc]
    have h1 : (4294967289 : Nat) &&& 1 = 1 := by decide
    rw [h1]
  · rfl

/-- A column and a variant of it that agrees on type and on the PRIMARY_KEY
bit, and on everything when the bit is not set, demand the same of a value. -/
theorem same_demands (c d : Column) (hty : d.type = c.type)
    (hpk : d.hasConstraint PRIMARY_KEY = c.hasConstraint PRIMARY_KEY)
    (hrest : c.hasConstraint PRIMARY_KEY = false → d = c) :
    d.type = c.type ∧
    ((d.hasConstraint NOT_NULL = true ∨ d.hasConstraint PRIMARY_KEY = true) ↔
      (c.hasConstraint NOT_NULL = true ∨ c.hasConstraint PRIMARY_KEY = true)) ∧
    ((d.hasConstraint UNIQUE = true ∨ d.hasConstraint PRIMARY_KEY = true) ↔
      (c.hasConstraint UNIQUE = true ∨ c.hasConstraint PRIMARY_KEY = true)) := by
  refine ⟨hty, ?_, ?_⟩
  · by_cases h : c.hasConstraint PRIMARY_KEY = true
    · rw [hpk, h]; simp
    · rw [hrest (by simpa using h)]
  · by_cases h : c.hasConstraint PRIMARY_KEY = true
    · rw [hpk, h]; simp
    · rw [hrest (by simpa using h)]

theorem withKeyBits_demands (c : Column) :
    c.withKeyBits.type = c.type ∧
    ((c.withKeyBits.hasConstraint NOT_NULL = true ∨
        c.withKeyBits.hasConstraint PRIMARY_KEY = true) ↔
      (c.hasConstraint NOT_NULL = true ∨ c.hasConstraint PRIMARY_KEY = true)) ∧
    ((c.withKeyBits.hasConstraint UNIQUE = true ∨
        c.withKeyBits.hasConstraint PRIMARY_KEY = true) ↔
      (c.hasConstraint UNIQUE = true ∨ c.hasConstraint PRIMARY_KEY = true)) := by
  apply same_demands c c.withKeyBits _ (withKeyBits_primaryKey c)
  · intro h
    simp [Column.withKeyBits, h]
  · unfold Column.withKeyBits
    split_ifs <;> rfl

theorem withoutKeyBits_demands (c : Column) :
    c.withoutKeyBits.type = c.type ∧
    ((c.withoutKeyBits.hasConstraint NOT_NULL = true ∨
        c.withoutKeyBits.hasConstraint PRIMARY_KEY = true) ↔
      (c.hasConstraint NOT_NULL = true ∨ c.hasConstraint PRIMARY_KEY = true)) ∧
    ((c.withoutKeyBits.hasConstraint UNIQUE = true ∨
        c.withoutKeyBits.hasConstraint PRIMARY_KEY = true) ↔
      (c.hasConstraint UNIQUE = true ∨ c.hasConstraint PRIMARY_KEY = true)) := by
  apply same_demands c c.withoutKeyBits _ (withoutKeyBits_primaryKey c)
  · intro h
    simp [Column.withoutKeyBits, h]
  · unfold Column.withoutKeyBits
    split_ifs <;> rfl

/-- Two schemas that demand the same of every value give `insertRow` the same
answer and the same records. -/
theorem insertRow_map (t : Table) (f : Column → Column) (values : List Str)
    (harity : ∀ r ∈ t.rows, r.values.length = t.columns.length)
    (hf : ∀ c : Column, (f c).type = c.type ∧
      (((f c).hasConstraint NOT_NULL = true ∨ (f c).hasConstraint PRIMARY_KEY = true) ↔
        (c.hasConstraint NOT_NULL = true ∨ c.hasConstraint PRIMARY_KEY = true)) ∧
      (((f c).hasConstraint UNIQUE = true ∨ (f c).hasConstraint PRIMARY_KEY = true) ↔
        (c.hasConstraint UNIQUE = true ∨ c.hasConstraint PRIMARY_KEY = true))) :
    ∃ r r2, t.insertRow values = some r ∧
      Table.insertRow { t with columns := t.columns.map f } values = some r2 ∧
      r2.ok = r.ok ∧ r2.table.rows = r.table.rows := by
  obtain ⟨r, hr, hiff⟩ := insertRow_ok_iff t values harity
  obtain ⟨r2, hr2, hiff2⟩ := insertRow_ok_iff { t with columns := t.columns.map f } values
    (fun x hx => by simpa using harity x hx)
  have hok : r2.ok = r.ok := by
    have : r2.ok = true ↔ r.ok = true := by
      rw [hiff, hiff2]
      exact admits_map t f values hf
    cases h1 : r.ok <;> cases h2 : r2.ok <;> simp_all
  refine ⟨r, r2, hr, hr2, hok, ?_⟩
  cases h : r.ok with
  | true =>
    rw [(insertRow_table_of_ok t values r hr h).1,
      (insertRow_table_of_ok _ values r2 hr2 (hok.trans h)).1]
  | false =>
    rw [insertRow_table_of_not_ok t values r hr h,
      insertRow_table_of_not_ok _ values r2 hr2 (hok.trans h)]

/-- C16: on a table whose records have schema arity, `insertRow` gives the same
accept / reject answer and leaves the same records whether the schema is the
table's own, or the one in which every PRIMARY_KEY column has the NOT_NULL and
UNIQUE bits set as well, or the one in which every PRIMARY_KEY column has
them cleared. -/
theorem insertRow_key_bits (t : Table) (values : List Str)
    (harity : ∀ r ∈ t.rows, r.values.length = t.columns.length) :
    (∃ r r2, t.insertRow values = some r ∧
      Table.insertRow { t with columns := t.columns.map Column.withKeyBits } values = some r2 ∧
      r2.ok = r.ok ∧ r2.table.rows = r.table.rows) ∧
    (∃ r r2, t.insertRow values = some r ∧
      Table.insertRow { t with columns := t.columns.map Column.withoutKeyBits } values
        = some r2 ∧
      r2.ok = r.ok ∧ r2.table.rows = r.table.rows) :=
  ⟨insertRow_map t Column.withKeyBits values harity withKeyBits_demands,
    insertRow_map t Column.withoutKeyBits values harity withoutKeyBits_demands⟩

/-- Witness of C16: `idTableOne`, whose column has the PRIMARY_KEY bit alone,
and `allBitsTable`, whose column has the three bits, both refuse the stored
key `1`. -/
theorem insertRow_key_bits_witness :
    (∀ r ∈ idTableOne.rows, r.values.length = idTableOne.columns.length) ∧
    ({ idTableOne with columns := idTableOne.columns.map Column.withKeyBits } : Table)
      = allBitsTable ∧
    ({ allBitsTable with columns := allBitsTable.columns.map Column.withoutKeyBits } : Table)
      = idTableOne ∧
    (idTableOne.insertRow ["1".toList]).map (fun r => (r.ok, r.table.rows))
      = some (false, idTableOne.rows) ∧
    (allBitsTable.insertRow ["1".toList]).map (fun r => (r.ok, r.table.rows))
      = some (false, idTableOne.rows) ∧
    ∃ r r2, idTableOne.insertRow ["1".toList] = some r ∧
      Table.insertRow { idTableOne with columns := idTableOne.columns.map Column.withKeyBits }
        ["1".toList] = some r2 ∧
      r2.ok = r.ok ∧ r2.table.rows = r.table.rows :=
  ⟨by decide, by decide, by decide, by decide, by decide,
    (insertRow_key_bits idTableOne ["1".toList] (by decide)).1⟩

/-! ## Integrity of the stored records -/

/-- Records of a table built columns-first have schema arity. -/
theorem built_records_arity (t : Table) (h : Table.Built t) :
    ∀ r ∈ t.rows, r.values.length = t.columns.length := by
  induction h with
  | new name => intro r hr; cases hr
  | addColumn name type constraints _ hrows _ =>
    intro r hr
    simp only [Table.addColumn] at hr
    rw [hrows] at hr
    cases hr
  | @insertRow t0 values res hb hins ih =>
    exact (insertRow_keeps t0 values res hins ih).2.2

/-- A successful `insertRow` was given a value list the table admits. -/
theorem admits_of_insertRow_ok (t : Table) (values : List Str) (r : TableResult)
    (harity : ∀ x ∈ t.rows, x.values.length = t.columns.length)
    (h : t.insertRow values = some r) (hok : r.ok = true) : t.admits values := by
  obtain ⟨r2, hr2, hiff⟩ := insertRow_ok_iff t values harity
  rw [h] at hr2
  cases hr2
  exact hiff.1 hok

/-- C19: in every table obtained from an empty table by adding all columns
first and then calling `insertRow` any number of times, two records at
different positions differ in every column flagged UNIQUE or PRIMARY_KEY, and
no record has the empty string in a column flagged NOT_NULL or PRIMARY_KEY. -/
theorem built_integrity (t : Table) (h : Table.Built t) :
    (∀ (i : Nat) (c : Column), t.columns[i]? = some c →
      (c.hasConstraint UNIQUE = true ∨ c.hasConstraint PRIMARY_KEY = true) →
      t.rows.Pairwise (fun r1 r2 => r1.values[i]? ≠ r2.values[i]?)) ∧
    (∀ (i : Nat) (c : Column), t.columns[i]? = some c →
      (c.hasConstraint NOT_NULL = true ∨ c.hasConstraint PRIMARY_KEY = true) →
      ∀ r ∈ t.rows, r.values[i]? ≠ some []) := by
  induction h with
  | new name =>
    exact ⟨fun _ _ _ _ => List.Pairwise.nil, fun _ _ _ _ r hr => by cases hr⟩
  | addColumn name type constraints _ hrows _ =>
    simp only [Table.addColumn, hrows]
    exact ⟨fun _ _ _ _ => List.Pairwise.nil, fun _ _ _ _ r hr => by cases hr⟩
  | @insertRow t0 values res hb hins ih =>
    cases hok : res.ok with
    | false =>
      rw [insertRow_table_of_not_ok t0 values res hins hok]
      exact ih
    | true =>
      have harity := built_records_arity t0 hb
      obtain ⟨hlen, hall⟩ := admits_of_insertRow_ok t0 values res harity hins hok
      rw [(insertRow_table_of_ok t0 values res hins hok).1]
      constructor
      · intro i c hc hf
        have hi : i < values.length := by
          rw [hlen]; exact (List.getElem?_eq_some.1 hc).1
        rw [List.pairwise_append]
        refine ⟨ih.1 i c hc hf, List.pairwise_singleton _ _, ?_⟩
        intro r1 hr1 r2 hr2
        rw [List.mem_singleton.1 hr2]
        simp only
        rw [List.getElem?_eq_getElem hi]
        exact (hall i c values[i] hc (List.getElem?_eq_getElem hi)).2.2 hf r1 hr1
      · intro i c hc hf r hr
        rcases List.mem_append.1 hr with hr | hr
        · exact ih.2 i c hc hf r hr
        · rw [List.mem_singleton.1 hr]
          intro hv
          exact (hall i c [] hc hv).2.1 hf rfl

/-- Witness of C19: `idTableOne`, built by one `addColumn` and one `insertRow`. -/
theorem built_integrity_witness :
    Table.Built idTableOne ∧
    idTableOne.rows.Pairwise (fun r1 r2 => r1.values[0]? ≠ r2.values[0]?) ∧
    ∀ r ∈ idTableOne.rows, r.values[0]? ≠ some [] :=
  have hb : Table.Built idTableOne :=
    Table.Built.insertRow ["1".toList] ⟨true, idTableOne, []⟩
      (Table.Built.addColumn "id".toList "int".toList PRIMARY_KEY
        (Table.Built.new "t".toList) rfl) rfl
  ⟨hb, (built_integrity idTableOne hb).1 0 ⟨"id".toList, "int".toList, PRIMARY_KEY⟩ rfl
      (Or.inr (by decide)),
    (built_integrity idTableOne hb).2 0 ⟨"id".toList, "int".toList, PRIMARY_KEY⟩ rfl
      (Or.inr (by decide))⟩

/-! ## Save and load of a table built columns-first -/

/-- `insertRow` does not look at the table name. -/
theorem insertRow_rename (t : Table) (n : Str) (values : List Str) :
    Table.insertRow ⟨n, t.columns, t.rows⟩ values
      = (t.insertRow values).map
          (fun r => ⟨r.ok, ⟨n, r.table.columns, r.table.rows⟩, r.out⟩) := by
  simp only [Table.insertRow, Table.validateConstraints]
  split_ifs
  · rfl
  · cases typePass values t.columns 0 with
    | none => rfl
    | some a =>
      cases a with
      | some m => rfl
      | none =>
        cases notNullPass values t.columns 0 with
        | none => rfl
        | some b =>
          cases b with
          | some m => rfl
          | none =>
            cases uniquePass t.rows values t.columns 0 with
            | none => rfl
            | some c =>
              cases c with
              | some m => rfl
              | none =>
                cases primaryKeyPass t.rows values t.columns 0 with
                | none => rfl
                | some d =>
                  cases d with
                  | some m => rfl
                  | none => rfl

theorem keepValid_rename (n : Str) : ∀ (rows : List Row) (t : Table),
    keepValid ⟨n, t.columns, t.rows⟩ rows
      = (keepValid t rows).map (fun t2 => ⟨n, t2.columns, t2.rows⟩)
  | [], _ => rfl
  | r :: rs, t => by
    simp only [keepValid, insertRow_rename t n r.values]
    cases t.insertRow r.values with
    | none => rfl
    | some res => exact keepValid_rename n rs res.table

theorem keepValid_append : ∀ (a b : List Row) (t : Table),
    keepValid t (a ++ b) = (keepValid t a).bind (fun t1 => keepValid t1 b)
  | [], _, _ => rfl
  | r :: rs, b, t => by
    simp only [List.cons_append, keepValid]
    cases t.insertRow r.values with
    | none => rfl
    | some res => exact keepValid_append rs b res.table

/-- Offering the records of a table built columns-first to `insertRow` again, in
order, rebuilds the table: none is rejected. -/
theorem built_keepValid (t : Table) (h : Table.Built t) :
    keepValid ⟨t.tableName, t.columns, []⟩ t.rows = some t := by
  induction h with
  | new name => rfl
  | addColumn name type constraints _ hrows _ =>
    simp only [Table.addColumn, hrows]
    rfl
  | @insertRow t0 values res hb hins ih =>
    cases hok : res.ok with
    | false =>
      rw [insertRow_table_of_not_ok t0 values res hins hok]
      exact ih
    | true =>
      have htab := (insertRow_table_of_ok t0 values res hins hok).1
      have hrows : res.table.rows = t0.rows ++ [⟨values⟩] := by rw [htab]
      have hcols : res.table.columns = t0.columns := by rw [htab]
      have hname : res.table.tableName = t0.tableName := by rw [htab]
      rw [hrows, hcols, hname, keepValid_append, ih]
      simp only [Option.some_bind, keepValid, hins]

/-- C18: for every table with at least one column that was built by adding all
its columns first and then calling `insertRow`, whose column names and types
are non-empty and free of whitespace (the constraint bits being those of an
`unsigned int`), whose stored values are all non-empty and free of
whitespace, and which has no one-value record equal to `END`, the lines that
`saveToFile` writes after the `TABLE` line are read by `loadFromFile`, up to
and including the `END` line, into a fresh table as exactly the same column
list and exactly the same record list. -/
theorem built_saveToFile_loadFromFile (t : Table) (name tail : Str) (hb : Table.Built t)
    (hne : t.columns ≠ []) (hcols : ∀ c ∈ t.columns, c.storable)
    (hrows : ∀ r ∈ t.rows, r.storable) :
    t.saveToFile = "TABLE ".toList ++ t.tableName ++ endl ++ t.saveBody ∧
    ∃ out, (Table.new name).loadFromFile (splitLines (t.saveBody ++ tail))
      = some ⟨⟨name, t.columns, t.rows⟩, splitLines tail, out⟩ := by
  refine ⟨rfl, ?_⟩
  obtain ⟨out0, h0⟩ := loadColumns_saved t.columns (Table.new name)
    (t.rows.map (fun r => joinSp r.values) ++ "END".toList :: splitLines tail) [] hcols
  have ht1 : ({ Table.new name with columns := (Table.new name).columns ++ t.columns } : Table)
      = ⟨name, t.columns, []⟩ := by
    simp [Table.new]
  rw [ht1] at h0
  obtain ⟨t2, out, h1, h2⟩ := loadRows_saved t.rows ⟨name, t.columns, []⟩
    (splitLines tail) out0 (fun r hr => by cases hr) hrows (Or.inl hne)
  have h3 := keepValid_rename name t.rows ⟨t.tableName, t.columns, []⟩
  rw [built_keepValid t hb] at h3
  simp only [Option.map_some'] at h3
  rw [h3] at h2
  cases h2
  refine ⟨out, ?_⟩
  rw [splitLines_saveBody t tail hcols hrows]
  simp only [Table.loadFromFile, h0, h1]

/-- Witness of C18: `idTableOne` saved and loaded into a fresh table `t`. -/
theorem built_saveToFile_loadFromFile_witness :
    Table.Built idTableOne ∧ idTableOne.columns ≠ [] ∧
    (∀ c ∈ idTableOne.columns, c.storable) ∧ (∀ r ∈ idTableOne.rows, r.storable) ∧
    splitLines (idTableOne.saveBody ++ [])
      = ["id int 1".toList, "DATA".toList, "1".toList, "END".toList] ∧
    ∃ out, (Table.new "t".toList).loadFromFile (splitLines (idTableOne.saveBody ++ []))
      = some ⟨⟨"t".toList, idTableOne.columns, idTableOne.rows⟩, splitLines [], out⟩ :=
  have hb : Table.Built idTableOne :=
    Table.Built.insertRow ["1".toList] ⟨true, idTableOne, []⟩
      (Table.Built.addColumn "id".toList "int".toList PRIMARY_KEY
        (Table.Built.new "t".toList) rfl) rfl
  ⟨hb, by decide, by decide, by decide, by decide,
    (built_saveToFile_loadFromFile idTableOne "t".toList [] hb (by decide) (by decide)
      (by decide)).2⟩

/-! ## The value tokenizer on every input -/

/-- The loop of `parseValues` in terms of the segments of the text still to read. -/
theorem parseValuesLoop_segments : ∀ (cs : Str) (values : List Str) (current : Str) (q : Bool),
    ∃ seg segs, quoteSegments cs q = seg :: segs ∧
      parseValuesLoop cs values current q
        = values ++ ((current ++ seg) :: segs).filter (fun f => !f.isEmpty)
  | [], values, current, q => by
    refine ⟨[], [], rfl, ?_⟩
    cases current with
    | nil => simp [parseValuesLoop]
    | cons x xs => simp [parseValuesLoop]
  | c :: cs, values, current, q => by
    by_cases hq : c = Char.ofNat 39
    · obtain ⟨seg, segs, h1, h2⟩ := parseValuesLoop_segments cs values current (!q)
      exact ⟨seg, segs, by simp only [quoteSegments, hq, if_true, h1],
        by simp only [parseValuesLoop, hq, if_true, h2]⟩
    · by_cases hc : c = ',' ∧ q = false
      · obtain ⟨hc1, hc2⟩ := hc
        subst hc1 hc2
        cases current with
        | nil =>
          obtain ⟨seg, segs, h1, h2⟩ := parseValuesLoop_segments cs values [] false
          refine ⟨[], seg :: segs, ?_, ?_⟩
          · simp only [quoteSegments, hq, if_false, and_self, if_true, h1]
          · simp only [parseValuesLoop, hq, if_false, and_self, if_true, ne_eq,
              not_true_eq_false, h2]
            simp
        | cons x xs =>
          obtain ⟨seg, segs, h1, h2⟩ :=
            parseValuesLoop_segments cs (values ++ [x :: xs]) [] false
          refine ⟨[], seg :: segs, ?_, ?_⟩
          · simp only [quoteSegments, hq, if_false, and_self, if_true, h1]
          · simp only [parseValuesLoop, hq, if_false, and_self, if_true, ne_eq,
              reduceCtorEq, not_false_eq_true, h2]
            simp
      · obtain ⟨seg, segs, h1, h2⟩ := parseValuesLoop_segments cs values (current ++ [c]) q
        refine ⟨c :: seg, segs, by simp only [quoteSegments, hq, if_false, hc, h1], ?_⟩
        simp only [parseValuesLoop, hq, if_false, hc, h2]
        simp

theorem flatten_filter_nonempty : ∀ l : List Str,
    (l.filter (fun f => !f.isEmpty)).flatten = l.flatten
  | [] => rfl
  | [] :: l => by
    simp only [List.filter_cons, List.isEmpty_nil, Bool.not_true, Bool.false_eq_true, if_false,
      List.flatten_cons, List.nil_append]
    exact flatten_filter_nonempty l
  | (x :: xs) :: l => by
    simp only [List.filter_cons, List.isEmpty_cons, Bool.not_false, if_true, List.flatten_cons]
    rw [flatten_filter_nonempty l]

theorem flatten_quoteSegments : ∀ (cs : Str) (q : Bool),
    (quoteSegments cs q).flatten = unquoted cs q
  | [], _ => rfl
  | c :: cs, q => by
    have ih1 := flatten_quoteSegments cs (!q)
    have ih2 := flatten_quoteSegments cs q
    simp only [quoteSegments, unquoted]
    split_ifs
    · exact ih1
    · simpa using ih2
    · cases h : quoteSegments cs q with
      | nil => rw [h] at ih2; simp at ih2 ⊢; exact ih2
      | cons seg segs => rw [h] at ih2; simp at ih2 ⊢; exact ih2

theorem quoteSegments_no_quote : ∀ (cs : Str) (q : Bool),
    ∀ seg ∈ quoteSegments cs q, Char.ofNat 39 ∉ seg
  | [], _ => by
    intro seg hseg
    simp only [quoteSegments, List.mem_singleton] at hseg
    rw [hseg]
    exact List.not_mem_nil _
  | c :: cs, q => by
    have ih1 := quoteSegments_no_quote cs (!q)
    have ih2 := quoteSegments_no_quote cs q
    intro seg hseg
    simp only [quoteSegments] at hseg
    split_ifs at hseg with hq hc
    · exact ih1 seg hseg
    · rcases List.mem_cons.1 hseg with h | h
      · rw [h]; exact List.not_mem_nil _
      · exact ih2 seg h
    · cases h : quoteSegments cs q with
      | nil =>
        rw [h] at hseg
        simp only [List.mem_singleton] at hseg
        rw [hseg]
        intro hmem
        exact hq (List.mem_singleton.1 hmem).symm
      | cons s0 segs =>
        rw [h] at hseg ih2
        rcases List.mem_cons.1 hseg with h1 | h1
        · rw [h1]
          intro hmem
          rcases List.mem_cons.1 hmem with h2 | h2
          · exact hq h2.symm
          · exact ih2 s0 (List.mem_cons_self _ _) h2
        · exact ih2 seg (List.mem_cons_of_mem _ h1)

/-- C17: for every input string, the fields `parseValues` returns are the
non-empty pieces into which the commas outside quotes cut the input, quotes
removed (so a comma inside an open quote never ends a field); every field is
non-empty and has no single quote; and the fields put one after the other are
the input without its single quotes and without its commas outside quotes. -/
theorem parseValues_fields (s : Str) :
    (∀ f ∈ DatabaseEngine.parseValues s, f ≠ [] ∧ Char.ofNat 39 ∉ f) ∧
    (DatabaseEngine.parseValues s).flatten = unquoted s false ∧
    DatabaseEngine.parseValues s = (quoteSegments s false).filter (fun f => !f.isEmpty) := by
  obtain ⟨seg, segs, h1, h2⟩ := parseValuesLoop_segments s [] [] false
  have hfields : DatabaseEngine.parseValues s
      = (quoteSegments s false).filter (fun f => !f.isEmpty) := by
    rw [DatabaseEngine.parseValues, h2, h1]
    rfl
  refine ⟨?_, ?_, hfields⟩
  · intro f hf
    rw [hfields] at hf
    obtain ⟨hmem, hne⟩ := List.mem_filter.1 hf
    refine ⟨?_, quoteSegments_no_quote s false f hmem⟩
    intro h
    rw [h] at hne
    cases hne
  · rw [hfields, flatten_filter_nonempty, flatten_quoteSegments]

/-! ## The command dispatch -/

theorem tokenIs_eq_true (tokens : List Str) (k : Nat) (w : String)
    (h : tokenIs tokens k w = some true) : tokens[k]? = some w.toList := by
  unfold tokenIs at h
  cases hk : tokens[k]? with
  | none => rw [hk] at h; cases h
  | some tok =>
    rw [hk] at h
    simp only [Option.some.injEq, decide_eq_true_eq] at h
    rw [h]

theorem andAlso_eq_true (a b : Option Bool) (h : andAlso a b = some true) :
    a = some true ∧ b = some true := by
  unfold andAlso at h
  split at h
  · cases h
  · cases h
  · exact ⟨rfl, h⟩

theorem tokens_shape3 (tokens : List Str) (a b c : Str) (h0 : tokens[0]? = some a)
    (h1 : tokens[1]? = some b) (h2 : tokens[2]? = some c) :
    ∃ rest, tokens = a :: b :: c :: rest := by
  match tokens, h0, h1, h2 with
  | x :: y :: z :: rest, h0, h1, h2 =>
    simp only [List.getElem?_cons_zero, List.getElem?_cons_succ, Option.some.injEq] at h0 h1 h2
    exact ⟨rest, by rw [h0, h1, h2]⟩

/-- A line whose first two tokens are `INSERT` and `INTO` is handed to `insertInto`. -/
theorem executeCommand_insert (e : DatabaseEngine) (command : Str) (rest : List Str)
    (htok : DatabaseEngine.parseCommand command = "INSERT".toList :: "INTO".toList :: rest) :
    e.executeCommand command = e.insertInto ("INSERT".toList :: "INTO".toList :: rest) := by
  have h0 : ∀ w : String, tokenIs ("INSERT".toList :: "INTO".toList :: rest) 0 w
      = some (decide ("INSERT".toList = w.toList)) := fun _ => rfl
  have h1 : ∀ w : String, tokenIs ("INSERT".toList :: "INTO".toList :: rest) 1 w
      = some (decide ("INTO".toList = w.toList)) := fun _ => by
    simp only [tokenIs, List.getElem?_cons_succ, List.getElem?_cons_zero]
  have d1 : decide ("INSERT".toList = "CREATE".toList) = false := by decide
  have d2 : decide ("INSERT".toList = "INSERT".toList) = true := by decide
  have d3 : decide ("INTO".toList = "INTO".toList) = true := by decide
  simp only [DatabaseEngine.executeCommand, htok, h0, h1, d1, d2, d3, andAlso, reduceCtorEq,
    if_false, decide_True]

/-! ## `INSERT INTO`: the table token -/

theorem findValues_zero_or_ge : ∀ (toks : List Str) (i : Nat),
    findValues toks i = 0 ∨ i ≤ findValues toks i
  | [], _ => Or.inl rfl
  | tok :: toks, i => by
    simp only [findValues]
    split_ifs
    · exact Or.inr (Nat.le_refl i)
    · rcases findValues_zero_or_ge toks (i + 1) with h | h
      · exact Or.inl h
      · exact Or.inr (by omega)

/-- The search for `VALUES` skips `INSERT`, `INTO` and a table token that is not
the word `VALUES`. -/
theorem findValues_skip (n : Str) (rest : List Str) (hn : n ≠ "VALUES".toList) :
    findValues ("INSERT".toList :: "INTO".toList :: n :: rest) 0 = findValues rest 3 := by
  have d1 : "INSERT".toList ≠ "VALUES".toList := by decide
  have d2 : "INTO".toList ≠ "VALUES".toList := by decide
  simp only [findValues, d1, d2, hn, if_false]

/-- `insertInto` gives the same result whatever the table token, the word
`VALUES` apart. -/
theorem insertInto_name_irrelevant (e : DatabaseEngine) (n1 n2 : Str) (rest : List Str)
    (hn1 : n1 ≠ "VALUES".toList) (hn2 : n2 ≠ "VALUES".toList) :
    e.insertInto ("INSERT".toList :: "INTO".toList :: n1 :: rest)
      = e.insertInto ("INSERT".toList :: "INTO".toList :: n2 :: rest) := by
  unfold DatabaseEngine.insertInto
  rw [findValues_skip n1 rest hn1, findValues_skip n2 rest hn2]
  rcases findValues_zero_or_ge rest 3 with h | h
  · simp only [h, if_true]
  · obtain ⟨m, hm⟩ : ∃ m, findValues rest 3 = m + 3 := ⟨findValues rest 3 - 3, by omega⟩
    simp only [hm, List.drop_succ_cons]

/-- What `insertInto` can do to the engine: nothing, or replace the current
table by the table `insertRow` returns. -/
theorem insertInto_result (e : DatabaseEngine) (tokens : List Str) (r : ExecResult)
    (h : e.insertInto tokens = some r) :
    r.engine = e ∨ ∃ (idx : Nat) (t : Table) (values : List Str) (res : TableResult),
      e.currentTable = TablePtr.valid idx ∧ e.tables[idx]? = some t ∧
      t.insertRow values = some res ∧
      r.engine = { e with tables := e.tables.set idx res.table } := by
  unfold DatabaseEngine.insertInto at h
  split at h
  · cases h; exact Or.inl rfl
  · cases h
  · rename_i idx hcur
    split_ifs at h
    · cases h; exact Or.inl rfl
    · split at h
      · cases h
      · split at h
        · cases h
        · rename_i t ht
          split at h
          · cases h
          · rename_i res hres
            cases h
            exact Or.inr ⟨idx, t, _, res, hcur, ht, hres, rfl⟩

/-- Counterexample to C12: with a one-column current table, the lines
`INSERT INTO t VALUES (1)` and `INSERT INTO VALUES VALUES (1)`, which differ
only in the table token, store different records: `1` and `VALUES (1`. -/
theorem insertInto_table_token_values :
    DatabaseEngine.parseCommand "INSERT INTO t VALUES (1)".toList
      = ["INSERT".toList, "INTO".toList, "t".toList, "VALUES".toList, "(1)".toList] ∧
    DatabaseEngine.parseCommand "INSERT INTO VALUES VALUES (1)".toList
      = ["INSERT".toList, "INTO".toList, "VALUES".toList, "VALUES".toList, "(1)".toList] ∧
    (engineOf textTable ⟨none, true⟩).executeCommand "INSERT INTO t VALUES (1)".toList
      = some ⟨engineOf { textTable with rows := [⟨["1".toList]⟩] } ⟨none, true⟩,
          "Record inserted.".toList ++ endl⟩ ∧
    (engineOf textTable ⟨none, true⟩).executeCommand "INSERT INTO VALUES VALUES (1)".toList
      = some ⟨engineOf { textTable with rows := [⟨["VALUES (1".toList]⟩] } ⟨none, true⟩,
          "Record inserted.".toList ++ endl⟩ := by
  refine ⟨by decide, by decide, by decide, by decide⟩

/-- C12 (amended): in an engine state with a current table, two lines
`INSERT INTO <table> ...` that differ only in the table token, neither token
being the word `VALUES`, make `executeCommand` produce the same output and the
same resulting state; in that state the current-table reference is unchanged
and every table other than the current one is unchanged; and when the records
of the current table have schema arity and the line is `INSERT INTO <table>
VALUES` followed by a parenthesised text, the command returns. -/
theorem executeCommand_insert_ignores_name (e : DatabaseEngine) (idx : Nat) (t : Table)
    (line1 line2 n1 n2 : Str) (rest : List Str)
    (hcur : e.currentTable = TablePtr.valid idx) (ht : e.tables[idx]? = some t)
    (hn1 : n1 ≠ "VALUES".toList) (hn2 : n2 ≠ "VALUES".toList)
    (h1 : DatabaseEngine.parseCommand line1 = "INSERT".toList :: "INTO".toList :: n1 :: rest)
    (h2 : DatabaseEngine.parseCommand line2 = "INSERT".toList :: "INTO".toList :: n2 :: rest) :
    e.executeCommand line1 = e.executeCommand line2 ∧
    (∀ r, e.executeCommand line1 = some r →
      r.engine.currentTable = e.currentTable ∧
      ∀ j, j ≠ idx → r.engine.tables[j]? = e.tables[j]?) ∧
    (∀ (args : List Str) (body : Str), (∀ x ∈ t.rows, x.values.length = t.columns.length) →
      rest = "VALUES".toList :: args → joinSp args = '(' :: body ++ [')'] →
      ∃ r, e.executeCommand line1 = some r) := by
  rw [executeCommand_insert e line1 _ h1, executeCommand_insert e line2 _ h2]
  refine ⟨insertInto_name_irrelevant e n1 n2 rest hn1 hn2, ?_, ?_⟩
  · intro r hr
    rcases insertInto_result e _ r hr with h | ⟨i, t2, values, res, hc, _, _, heng⟩
    · rw [h]
      exact ⟨rfl, fun _ _ => rfl⟩
    · rw [hcur] at hc
      cases hc
      rw [heng]
      exact ⟨rfl, fun j hj => List.getElem?_set_ne (Ne.symm hj)⟩
  · intro args body harity hrest hjoin
    subst hrest
    obtain ⟨res, hres⟩ := insertRow_total t (DatabaseEngine.parseValues body) harity
    have hfind : findValues ("VALUES".toList :: args) 3 = 3 := by
      simp only [findValues, if_true]
    have hstrip : stripParens ('(' :: body ++ [')']) = some body := by
      simp [stripParens]
    have hrun : e.insertInto ("INSERT".toList :: "INTO".toList :: n1 :: "VALUES".toList :: args)
        = some ⟨{ e with tables := e.tables.set idx res.table },
            res.out ++ (if res.ok then "Record inserted.".toList ++ endl else [])⟩ := by
      simp only [DatabaseEngine.insertInto, hcur, findValues_skip n1 _ hn1, hfind,
        OfNat.ofNat_ne_zero, if_false, List.drop_succ_cons, List.drop_zero, hjoin, hstrip, ht,
        hres]
    exact ⟨_, hrun⟩

/-- Witness of C12: the table tokens `t` and `nosuch`, with the one-column
table `textTable` as current table. -/
theorem executeCommand_insert_ignores_name_witness :
    (engineOf textTable ⟨none, true⟩).currentTable = TablePtr.valid 0 ∧
    (engineOf textTable ⟨none, true⟩).tables[0]? = some textTable ∧
    DatabaseEngine.parseCommand "INSERT INTO t VALUES (1)".toList
      = "INSERT".toList :: "INTO".toList :: "t".toList :: ["VALUES".toList, "(1)".toList] ∧
    DatabaseEngine.parseCommand "INSERT INTO nosuch VALUES (1)".toList
      = "INSERT".toList :: "INTO".toList :: "nosuch".toList :: ["VALUES".toList, "(1)".toList] ∧
    (engineOf textTable ⟨none, true⟩).executeCommand "INSERT INTO nosuch VALUES (1)".toList
      = some ⟨engineOf { textTable with rows := [⟨["1".toList]⟩] } ⟨none, true⟩,
          "Record inserted.".toList ++ endl⟩ ∧
    (engineOf textTable ⟨none, true⟩).executeCommand "INSERT INTO t VALUES (1)".toList
      = (engineOf textTable ⟨none, true⟩).executeCommand "INSERT INTO nosuch VALUES (1)".toList :=
  ⟨rfl, rfl, by decide, by decide, by decide,
    (executeCommand_insert_ignores_name (engineOf textTable ⟨none, true⟩) 0 textTable
      "INSERT INTO t VALUES (1)".toList "INSERT INTO nosuch VALUES (1)".toList
      "t".toList "nosuch".toList ["VALUES".toList, "(1)".toList] rfl rfl
      (by decide) (by decide) (by decide) (by decide)).1⟩

/-! ## Table names in the catalog -/

theorem insertRow_tableName (t : Table) (values : List Str) (res : TableResult)
    (h : t.insertRow values = some res) : res.table.tableName = t.tableName := by
  cases hok : res.ok with
  | false => rw [insertRow_table_of_not_ok t values res h hok]
  | true => rw [(insertRow_table_of_ok t values res h hok).1]

theorem map_tableName_set : ∀ (tables : List Table) (idx : Nat) (t t2 : Table),
    tables[idx]? = some t → t2.tableName = t.tableName →
    (tables.set idx t2).map Table.tableName = tables.map Table.tableName
  | [], _, _, _, h, _ => by simp at h
  | x :: xs, 0, t, t2, h, hn => by
    simp only [List.getElem?_cons_zero, Option.some.injEq] at h
    subst h
    simp only [List.set_cons_zero, List.map_cons, hn]
  | x :: xs, idx + 1, t, t2, h, hn => by
    simp only [List.getElem?_cons_succ] at h
    simp only [List.set_cons_succ, List.map_cons, map_tableName_set xs idx t t2 h hn]

/-- What `addColumn` of the engine can do: nothing, or replace the current
table by the table with one more column. -/
theorem addColumn_result (e : DatabaseEngine) (tokens : List Str) (r : ExecResult)
    (h : e.addColumn tokens = some r) :
    r.engine = e ∨ ∃ (idx : Nat) (t : Table) (name type : Str) (c : Nat),
      e.currentTable = TablePtr.valid idx ∧ e.tables[idx]? = some t ∧
      r.engine = { e with tables := e.tables.set idx (t.addColumn name type c).1 } := by
  unfold DatabaseEngine.addColumn at h
  split at h
  · cases h; exact Or.inl rfl
  · cases h
  · rename_i idx hcur
    split at h
    · rename_i t colName colType ht _ _
      cases h
      exact Or.inr ⟨idx, t, colName, colType, _, hcur, ht, rfl⟩
    · cases h

/-- A command other than `LOAD FROM FILE` keeps the list of table names, or
is a `CREATE TABLE <name>` and appends the name. -/
theorem executeCommand_names (e : DatabaseEngine) (command : Str) (r : ExecResult)
    (h : e.executeCommand command = some r) (hl : notLoad command) :
    r.engine.tables.map Table.tableName = e.tables.map Table.tableName ∨
    ∃ (n : Str) (rest : List Str),
      DatabaseEngine.parseCommand command = "CREATE".toList :: "TABLE".toList :: n :: rest ∧
      r.engine.tables.map Table.tableName = e.tables.map Table.tableName ++ [n] := by
  unfold notLoad at hl
  simp only [DatabaseEngine.executeCommand] at h
  generalize DatabaseEngine.parseCommand command = tokens at h hl
  split_ifs at h
  · cases h; exact Or.inl rfl
  · split at h
    · cases h
    · rename_i hcreate
      split at h
      · cases h
      · rename_i n hn
        cases h
        obtain ⟨ha, hb⟩ := andAlso_eq_true _ _ hcreate
        obtain ⟨rest, hrest⟩ := tokens_shape3 tokens _ _ n (tokenIs_eq_true _ _ _ ha)
          (tokenIs_eq_true _ _ _ hb) hn
        exact Or.inr ⟨n, rest, hrest, by simp [DatabaseEngine.createTable, Table.new]⟩
    · split at h
      · cases h
      · left
        rcases insertInto_result e tokens r h with h1 | ⟨idx, t, values, res, _, ht, hres, heng⟩
        · rw [h1]
        · rw [heng]
          exact map_tableName_set e.tables idx t res.table ht (insertRow_tableName t values res hres)
      · split at h
        · cases h
        · split at h
          · cases h
          · split at h
            · cases h
            · cases h
              left
              unfold DatabaseEngine.selectFrom
              split <;> rfl
          · cases h; exact Or.inl rfl
        · split at h
          · cases h
          · cases h
            left
            unfold DatabaseEngine.saveToFile
            split_ifs <;> rfl
          · split at h
            · cases h
            · rename_i hload
              exfalso
              obtain ⟨ha, hbc⟩ := andAlso_eq_true _ _ hload
              obtain ⟨hb, hc⟩ := andAlso_eq_true _ _ hbc
              obtain ⟨rest, hrest⟩ := tokens_shape3 tokens _ _ _ (tokenIs_eq_true _ _ _ ha)
                (tokenIs_eq_true _ _ _ hb) (tokenIs_eq_true _ _ _ hc)
              exact hl rest hrest
            · split at h
              · cases h
              · left
                rcases addColumn_result e tokens r h with h1 | ⟨idx, t, name, type, c, _, ht, heng⟩
                · rw [h1]
                · rw [heng]
                  exact map_tableName_set e.tables idx t _ ht rfl
              · cases h; exact Or.inl rfl

/-- Every state that `runLines` reaches from a reachable state is reachable. -/
theorem runLines_reachable : ∀ (lines : List Str) (e : DatabaseEngine) (out : Str)
    (r : ExecResult), DatabaseEngine.Reachable e → runLines e lines out = some r →
    DatabaseEngine.Reachable r.engine
  | [], e, out, r, he, h => by
    simp only [runLines, Option.some.injEq] at h
    rw [← h]
    exact he
  | line :: rest, e, out, r, he, h => by
    simp only [runLines] at h
    split_ifs at h
    · simp only [Option.some.injEq] at h
      rw [← h]
      exact he
    · split at h
      · cases h
      · rename_i r1 hr1
        exact runLines_reachable rest r1.engine _ r
          (DatabaseEngine.Reachable.step line r1 he hr1) h

/-- Counterexample to C13: two reachable catalogs with two tables named `t`:
after `CREATE TABLE t` twice, and after one `CREATE TABLE t`, three inserts,
`SAVE TO FILE` and `LOAD FROM FILE`, the stored values `END`, `TABLE t` and
`DATA` being read back as the end of the first block and as a second block. -/
theorem catalog_duplicate_names :
    (∃ e, DatabaseEngine.Reachable e ∧ e.tables.map Table.tableName = ["t".toList, "t".toList] ∧
      ¬ (e.tables.map Table.tableName).Nodup) ∧
    (∃ e, DatabaseEngine.Reachable e ∧
      (runLines (DatabaseEngine.new ⟨none, true⟩)
        ["CREATE TABLE t".toList, "ADD COLUMN a text".toList,
          "INSERT INTO t VALUES (END)".toList, "INSERT INTO t VALUES ('TABLE t')".toList,
          "INSERT INTO t VALUES (DATA)".toList, "SAVE TO FILE".toList,
          "LOAD FROM FILE".toList] []).map (fun r => r.engine) = some e ∧
      e.tables.map Table.tableName = ["t".toList, "t".toList]) := by
  constructor
  · have h : runLines (DatabaseEngine.new ⟨none, true⟩)
        ["CREATE TABLE t".toList, "CREATE TABLE t".toList] []
        = some ⟨⟨[Table.new "t".toList, Table.new "t".toList], TablePtr.valid 1, ⟨none, true⟩⟩,
            "Table t created successfully.".toList ++ endl
              ++ "Table t created successfully.".toList ++ endl⟩ := by decide
    exact ⟨_, runLines_reachable _ _ _ _ (DatabaseEngine.Reachable.new _) h, by decide,
      by decide⟩
  · cases h : runLines (DatabaseEngine.new ⟨none, true⟩)
        ["CREATE TABLE t".toList, "ADD COLUMN a text".toList,
          "INSERT INTO t VALUES (END)".toList, "INSERT INTO t VALUES ('TABLE t')".toList,
          "INSERT INTO t VALUES (DATA)".toList, "SAVE TO FILE".toList,
          "LOAD FROM FILE".toList] [] with
    | none => exact absurd h (by decide)
    | some r =>
      refine ⟨r.engine, runLines_reachable _ _ _ _ (DatabaseEngine.Reachable.new _) h, rfl, ?_⟩
      have h2 : (runLines (DatabaseEngine.new ⟨none, true⟩)
        ["CREATE TABLE t".toList, "ADD COLUMN a text".toList,
          "INSERT INTO t VALUES (END)".toList, "INSERT INTO t VALUES ('TABLE t')".toList,
          "INSERT INTO t VALUES (DATA)".toList, "SAVE TO FILE".toList,
          "LOAD FROM FILE".toList] []).map (fun r => r.engine.tables.map Table.tableName)
          = some ["t".toList, "t".toList] := by decide
      rw [h] at h2
      exact Option.some.inj h2

/-- C13 (amended): in every catalog state reachable from the empty catalog by
commands through `executeCommand`, none of which is `LOAD FROM FILE` and whose
`CREATE TABLE` commands each name a table not yet in the catalog, no two tables
have the same name. -/
theorem reachableFresh_names_nodup (e : DatabaseEngine) (h : DatabaseEngine.ReachableFresh e) :
    (e.tables.map Table.tableName).Nodup := by
  induction h with
  | new d => exact List.nodup_nil
  | @step e0 command r _ hfresh hload hexec ih =>
    rcases executeCommand_names e0 command r hexec hload with h1 | ⟨n, rest, htok, h1⟩
    · rw [h1]; exact ih
    · rw [h1]
      apply List.Nodup.append ih (List.nodup_singleton n)
      intro x hx hxn
      rw [List.mem_singleton.1 hxn] at hx
      obtain ⟨t, ht, htn⟩ := List.mem_map.1 hx
      exact hfresh n rest htok t ht htn

/-- Witness of C13: the catalog after `CREATE TABLE t` and `CREATE TABLE u`. -/
theorem reachableFresh_names_nodup_witness :
    DatabaseEngine.ReachableFresh
      ⟨[Table.new "t".toList, Table.new "u".toList], TablePtr.valid 1, ⟨none, true⟩⟩ ∧
    (["t".toList, "u".toList] : List Str).Nodup :=
  have hp1 : DatabaseEngine.parseCommand "CREATE TABLE t".toList
      = ["CREATE".toList, "TABLE".toList, "t".toList] := by decide
  have hp2 : DatabaseEngine.parseCommand "CREATE TABLE u".toList
      = ["CREATE".toList, "TABLE".toList, "u".toList] := by decide
  have h1 : DatabaseEngine.ReachableFresh
      ⟨[Table.new "t".toList], TablePtr.valid 0, ⟨none, true⟩⟩ :=
    DatabaseEngine.ReachableFresh.step "CREATE TABLE t".toList
      ⟨⟨[Table.new "t".toList], TablePtr.valid 0, ⟨none, true⟩⟩,
        "Table t created successfully.".toList ++ endl⟩
      (DatabaseEngine.ReachableFresh.new ⟨none, true⟩)
      (fun n rest _ t ht => by cases ht)
      (fun rest h => by rw [hp1] at h; exact absurd (List.cons.inj h).1 (by decide))
      (by decide)
  have h2 : DatabaseEngine.ReachableFresh
      ⟨[Table.new "t".toList, Table.new "u".toList], TablePtr.valid 1, ⟨none, true⟩⟩ :=
    DatabaseEngine.ReachableFresh.step "CREATE TABLE u".toList
      ⟨⟨[Table.new "t".toList, Table.new "u".toList], TablePtr.valid 1, ⟨none, true⟩⟩,
        "Table u created successfully.".toList ++ endl⟩ h1
      (fun n rest h t ht => by
        rw [hp2] at h
        have hn : "u".toList = n := (List.cons.inj (List.cons.inj (List.cons.inj h).2).2).1
        rw [List.mem_singleton.1 ht, ← hn]
        decide)
      (fun rest h => by rw [hp2] at h; exact absurd (List.cons.inj h).1 (by decide))
      (by decide)
  ⟨h2, reachableFresh_names_nodup _ h2⟩

/-! ## Unrecognised and truncated commands -/

/-- A line whose first token is none of `CREATE`, `INSERT`, `SELECT`, `SAVE`,
`LOAD`, `ADD` gets the unknown-command message and changes nothing. -/
theorem executeCommand_unknown (e : DatabaseEngine) (command tok : Str) (rest : List Str)
    (htok : DatabaseEngine.parseCommand command = tok :: rest)
    (h1 : tok ≠ "CREATE".toList) (h2 : tok ≠ "INSERT".toList) (h3 : tok ≠ "SELECT".toList)
    (h4 : tok ≠ "SAVE".toList) (h5 : tok ≠ "LOAD".toList) (h6 : tok ≠ "ADD".toList) :
    e.executeCommand command = some ⟨e, "Unknown command!".toList ++ endl⟩ := by
  have h0 : ∀ w : String, tokenIs (tok :: rest) 0 w = some (decide (tok = w.toList)) :=
    fun _ => by simp only [tokenIs, List.getElem?_cons_zero]
  simp only [DatabaseEngine.executeCommand, htok, h0, h1, h2, h3, h4, h5, h6, andAlso,
    reduceCtorEq, if_false, decide_False]

/-- C11 (the code at the failing input): the lines `SELECT x` and `SELECT * x y`
are none of the six command forms, yet `executeCommand` prints nothing for
them, where a line such as `HELLO` gets the unknown-command message; and
the line `CREATE x`, which is no command form either, gets the message. -/
theorem executeCommand_select_silent (e : DatabaseEngine) :
    e.executeCommand "SELECT x".toList = some ⟨e, []⟩ ∧
    e.executeCommand "SELECT * x y".toList = some ⟨e, []⟩ ∧
    e.executeCommand "HELLO".toList = some ⟨e, "Unknown command!".toList ++ endl⟩ ∧
    e.executeCommand "CREATE x".toList = some ⟨e, "Unknown command!".toList ++ endl⟩ :=
  ⟨rfl, rfl, rfl, rfl⟩

/-- C20 (the code at the failing inputs): lines that stop after a keyword make
`executeCommand` read a token position that does not exist, in the dispatch
(`CREATE`, `CREATE TABLE`, `INSERT`, `SELECT`, `SELECT * FROM`, `SAVE TO`,
`LOAD`, `ADD`) or in `addColumn` (`ADD COLUMN x` with a current table); and
with a current table `INSERT INTO t VALUES` makes `insertInto` take the first
character of an empty string, `INSERT INTO t VALUES (` the last one. -/
theorem executeCommand_reads_out_of_range (e : DatabaseEngine) (d : Disk) :
    (e.executeCommand "CREATE".toList = none ∧
      e.executeCommand "CREATE TABLE".toList = none ∧
      e.executeCommand "INSERT".toList = none ∧
      e.executeCommand "SELECT".toList = none ∧
      e.executeCommand "SELECT * FROM".toList = none ∧
      e.executeCommand "SAVE TO".toList = none ∧
      e.executeCommand "LOAD".toList = none ∧
      e.executeCommand "ADD".toList = none) ∧
    ((engineOf textTable d).executeCommand "ADD COLUMN x".toList = none ∧
      (engineOf textTable d).executeCommand "INSERT INTO t VALUES".toList = none ∧
      (engineOf textTable d).executeCommand "INSERT INTO t VALUES (".toList = none) :=
  ⟨⟨rfl, rfl, rfl, rfl, rfl, rfl, rfl, rfl⟩, rfl, rfl, rfl⟩

end MiniDb
